import Mathlib

/-!
Verification development for the "strange-attractors" repository.

The file embeds, in Lean 4, the algorithmic core of the repository:

* `src/backup/core-mathematical-foundation/primes.js` — the sieve of
  Eratosthenes (`sieveOfEratosthenes`), the per-harmonic weight function
  (`getHarmonicWeight` with `isPrimeResonant`), and the harmonic coupling
  term (`calculateHarmonicCoupling`);
* `src/src/spiral.js` — the trajectory integrator `generateSpiral` with its
  input validation, explicit Euler stepping, and in-loop instability check;
* `src/projection.js` — the projection stage `projectSpiral` (PCA
  reduction with fallback, and the color/size/opacity encodings).

JavaScript numbers are modelled by the type `JSNum`: an ordinary finite
number carries a real payload (`JSNum.num (x : ℝ)`), and the IEEE special
values NaN, +Infinity and -Infinity are separate constructors with the usual
propagation rules for the operations the code uses.  Purely real-valued
helpers (the weight table, the projector encodings) are modelled directly
over `ℝ`, since every input they receive in the claims under study is a
finite number.  Loops are embedded as folds or fuelled structural recursion
over explicit index ranges, mirroring the JavaScript `for` loops bound for
bound (the fuel of `sieveLoop` and the iteration count of `runLoop` are
chosen so that the loop guard, not the fuel, decides termination).
A thrown JavaScript exception is modelled as `Except.error` carrying the
message; the external `ml-pca` eigendecomposition is an oracle parameter of
the projector, `Except.error` standing for a throw inside the library.
-/

namespace StrangeAttractors

/-! ## PrimeTable: `sieveOfEratosthenes` (primes.js, lines 3-21)

The JS inner loop `for (let j = i * i; j <= limit; j += i) sieve[j] = false`
visits exactly the arithmetic progression `i*i, i*i+i, ...` up to `limit`,
which has `(limit - i*i) / i + 1` terms when `i*i ≤ limit`; it is embedded
as a fold over that explicit index list.  The outer loop
`for (let i = 2; i * i <= limit; i++)` is embedded as fuelled recursion
with the original guard `i * i ≤ limit`; fuel `limit + 1` is always enough
for the guard to be the reason the loop stops. -/

/-- One outer-loop iteration of the sieve: if `sieve[i]` is still set, clear
every multiple `j = i*i, i*i+i, …` up to `limit` (primes.js lines 8-12). -/
def sieveStep (limit : ℕ) (s : List Bool) (i : ℕ) : List Bool :=
  if s.getD i false then
    (List.range' (i * i) ((limit - i * i) / i + 1) i).foldl (fun acc j => acc.set j false) s
  else s

/-- The outer sieve loop `for (let i = 2; i * i <= limit; i++)`
(primes.js lines 7-13), as fuelled recursion with the original guard. -/
def sieveLoop (limit : ℕ) : ℕ → List Bool → ℕ → List Bool
  | 0, s, _ => s
  | fuel + 1, s, i =>
    if i * i ≤ limit then sieveLoop limit fuel (sieveStep limit s i) (i + 1) else s

/-- The fully-run boolean sieve array: `new Array(limit + 1).fill(true)` with
`sieve[0] = sieve[1] = false`, then the outer loop from `i = 2`
(primes.js lines 4-13). -/
def sieveRun (limit : ℕ) : List Bool :=
  sieveLoop limit (limit + 1) (((List.replicate (limit + 1) true).set 0 false).set 1 false) 2

/-- `sieveOfEratosthenes(limit)` (primes.js lines 3-21): run the sieve, then
collect `i = 2 .. limit` with `sieve[i]` still set, in ascending order
(primes.js lines 15-18). -/
def sieveOfEratosthenes (limit : ℕ) : List ℕ :=
  (List.range' 2 (limit - 1)).filter (fun k => (sieveRun limit).getD k false)

/-- `EXTENDED_PRIMES` (primes.js line 24): all primes up to 1000. -/
def EXTENDED_PRIMES : List ℕ := sieveOfEratosthenes 1000

/-- `EXTENDED_PRIMES.slice(0, 50)` (spiral.js line 30): the 50 primes used by
the integrator's harmonic bank. -/
def primes50 : List ℕ := EXTENDED_PRIMES.take 50

/-- The sieve-loop invariant: before processing outer index `c`, cell `k`
is still set exactly when `k ≥ 2` and no prime below `c` divides `k` with
its square at most `k`. -/
def SieveInv (limit c : ℕ) (s : List Bool) : Prop :=
  ∀ k, k ≤ limit →
    (s.getD k false = true ↔
      2 ≤ k ∧ ∀ p, Nat.Prime p → p < c → ¬(p ∣ k ∧ p * p ≤ k))

/-! ## Harmonic weights: `getHarmonicWeight` (primes.js, lines 42-61)

All inputs this function receives in the repository are finite JS numbers
(table primes, indices, the table length), and on finite inputs with a
positive prime and a positive total every intermediate JS value is finite,
so the function is modelled directly over `ℝ`. -/

/-- `resonantPrimes` (primes.js line 59): the fixed allowlist of primes that
receive the 1.1× resonance boost. -/
def resonantPrimes : List ℝ := [2, 3, 5, 7, 11, 13, 17, 19, 23, 29, 31, 37, 41, 43, 47]

/-- `isPrimeResonant(prime)` (primes.js lines 57-61): membership of `prime`
in the fixed allowlist. -/
def isPrimeResonant (prime : ℝ) : Prop := prime ∈ resonantPrimes

open Classical in
/-- `getHarmonicWeight(prime, index, totalPrimes)` (primes.js lines 42-55):
`exp(-index / (totalPrimes * 0.1))` decay, a 1.1× boost for resonant primes,
quadratic decay `1 / (prime * prime)`, hard-clamped by `Math.min(·, 0.01)`. -/
noncomputable def getHarmonicWeight (prime index totalPrimes : ℝ) : ℝ :=
  min (Real.exp (-index / (totalPrimes * 0.1)) *
    (if isPrimeResonant prime then 1.1 else 1.0) * (1 / (prime * prime))) 0.01

/-! ## JavaScript numbers: the `JSNum` model

`num x` is a finite IEEE double carrying its exact real value; `nan`, `inf`
and `ninf` are NaN, +Infinity and -Infinity.  The operations below copy the
IEEE rules for the expressions `spiral.js` evaluates: NaN propagates through
arithmetic, `Infinity * 0 = NaN`, `Infinity + (-Infinity) = NaN`,
`cos`/`sin` of a non-finite value is NaN, and `tanh(±Infinity) = ±1`.
Rounding is not modelled: a finite result carries the exact real value. -/

inductive JSNum where
  | num (x : ℝ)
  | nan
  | inf
  | ninf

namespace JSNum

/-- IEEE addition for the cases arising in the code. -/
def add : JSNum → JSNum → JSNum
  | num a, num b => num (a + b)
  | nan, _ => nan
  | _, nan => nan
  | inf, ninf => nan
  | ninf, inf => nan
  | inf, _ => inf
  | ninf, _ => ninf
  | _, inf => inf
  | _, ninf => ninf

/-- IEEE negation (the JS unary minus). -/
def neg : JSNum → JSNum
  | num a => num (-a)
  | nan => nan
  | inf => ninf
  | ninf => inf

open Classical in
/-- IEEE multiplication; an infinity times zero is NaN, otherwise the sign
rule applies. -/
noncomputable def mul : JSNum → JSNum → JSNum
  | num a, num b => num (a * b)
  | nan, _ => nan
  | _, nan => nan
  | inf, inf => inf
  | inf, ninf => ninf
  | ninf, inf => ninf
  | ninf, ninf => inf
  | inf, num b => if b = 0 then nan else if 0 < b then inf else ninf
  | num a, inf => if a = 0 then nan else if 0 < a then inf else ninf
  | ninf, num b => if b = 0 then nan else if 0 < b then ninf else inf
  | num a, ninf => if a = 0 then nan else if 0 < a then ninf else inf

/-- IEEE subtraction, `a - b = a + (-b)`. -/
noncomputable def sub (a b : JSNum) : JSNum := add a (neg b)

/-- `Math.cos`: NaN on any non-finite argument. -/
noncomputable def cos : JSNum → JSNum
  | num a => num (Real.cos a)
  | _ => nan

/-- `Math.sin`: NaN on any non-finite argument. -/
noncomputable def sin : JSNum → JSNum
  | num a => num (Real.sin a)
  | _ => nan

/-- `Math.tanh`: `tanh(±Infinity) = ±1`, NaN propagates. -/
noncomputable def tanh : JSNum → JSNum
  | num a => num (Real.tanh a)
  | inf => num 1
  | ninf => num (-1)
  | nan => nan

/-- `isFinite(x)`: true exactly on ordinary numbers. -/
def isFinite : JSNum → Bool
  | num _ => true
  | _ => false

/-- `isNaN(x)` for a value already known to be a number. -/
def isNaNb : JSNum → Bool
  | nan => true
  | _ => false

/-- The JS `<` comparison: any comparison involving NaN is false. -/
def jsLt : JSNum → JSNum → Prop
  | num a, num b => a < b
  | num _, inf => True
  | ninf, num _ => True
  | ninf, inf => True
  | _, _ => False

/-- The JS `<=` comparison: any comparison involving NaN is false. -/
def jsLe : JSNum → JSNum → Prop
  | num a, num b => a ≤ b
  | num _, inf => True
  | ninf, num _ => True
  | ninf, inf => True
  | inf, inf => True
  | ninf, ninf => True
  | _, _ => False

/-- `Number.isInteger(x)`: a finite number with an integral value. -/
def isInteger : JSNum → Prop
  | num x => ∃ n : ℤ, x = (n : ℝ)
  | _ => False

/-- A value that is an ordinary finite number. -/
def IsNum (f : JSNum) : Prop := ∃ r : ℝ, f = num r

end JSNum

open JSNum

/-! ## Harmonic coupling: `calculateHarmonicCoupling` (primes.js, lines 64-86)

The harmonic state reaching this function can be non-finite, so it is
modelled over `JSNum`.  The per-index weight is computed from the table
prime, the index and the harmonic count — always finite JS numbers — so it
enters as a `num`. -/

/-- One summand of the direct coupling loop (primes.js lines 69-73):
`tanh(harmonics[i] * weight * cos(primes[i] * time * 0.001))`. -/
noncomputable def couplingTermAt (harmonics : List JSNum) (primes : List ℕ) (time : JSNum)
    (numHarmonics i : ℕ) : JSNum :=
  tanh (mul (mul (harmonics.getD i nan)
      (num (getHarmonicWeight (primes.getD i 0) i numHarmonics)))
    (cos (mul (mul (num (primes.getD i 0)) time) (num 0.001))))

/-- One increment of the cross-coupling loop (primes.js lines 76-81):
`tanh(harmonics[i]) * tanh(harmonics[j]) * sin((primes[i]+primes[j]) * time
* 0.0001)`, scaled by `0.0001` as it is accumulated. -/
noncomputable def crossTermAt (harmonics : List JSNum) (primes : List ℕ) (time : JSNum)
    (i j : ℕ) : JSNum :=
  mul (mul (mul (tanh (harmonics.getD i nan)) (tanh (harmonics.getD j nan)))
    (sin (mul (mul (num ((primes.getD i 0 + primes.getD j 0 : ℕ) : ℝ)) time) (num 0.0001))))
    (num 0.0001)

/-- `calculateHarmonicCoupling(harmonics, primes, time, couplingStrength)`
(primes.js lines 64-86): the direct per-harmonic sum of
`tanh(h[i] * weight * cos(primes[i] * time * 0.001))`, plus the pairwise
cross terms over the first `min(5, numHarmonics)` harmonics, finally clamped
by `tanh(coupling * couplingStrength)`. -/
noncomputable def calculateHarmonicCoupling (harmonics : List JSNum) (primes : List ℕ)
    (time : JSNum) (couplingStrength : ℝ) : JSNum :=
  let numHarmonics := min harmonics.length primes.length
  let direct := (List.range numHarmonics).foldl (fun acc i =>
    add acc (couplingTermAt harmonics primes time numHarmonics i)) (num 0)
  let coupling := (List.range (min 5 numHarmonics)).foldl (fun acc i =>
    (List.range' (i + 1) (min 5 numHarmonics - (i + 1))).foldl (fun acc2 j =>
      add acc2 (crossTermAt harmonics primes time i j)) acc) direct
  tanh (mul coupling (num couplingStrength))

/-! ## The integrator: `generateSpiral` (spiral.js, lines 4-100) -/

/-- The parameter object handed to `generateSpiral`.  A field holding `none`
models a property that is missing (destructures to `undefined`) or holds a
non-number value; `some v` models a property holding the JS number `v`. -/
structure SpiralParams where
  alpha : Option JSNum
  beta : Option JSNum
  gamma : Option JSNum
  omega : Option JSNum
  eta : Option JSNum
  theta : Option JSNum
  delta : Option JSNum

/-- The seven parameter values after validation has passed. -/
structure PV where
  alpha : JSNum
  beta : JSNum
  gamma : JSNum
  omega : JSNum
  eta : JSNum
  theta : JSNum
  delta : JSNum

/-- Destructuring `const { alpha, …, delta } = params` (spiral.js line 19);
only reached after validation, so every field is `some`. -/
def SpiralParams.extract (p : SpiralParams) : PV :=
  ⟨p.alpha.getD nan, p.beta.getD nan, p.gamma.getD nan, p.omega.getD nan,
   p.eta.getD nan, p.theta.getD nan, p.delta.getD nan⟩

/-- The integrator state before flattening: positions, velocities and the
harmonic bank (spiral.js lines 38-39). -/
structure SpiralState where
  x : JSNum
  y : JSNum
  z : JSNum
  u : JSNum
  v : JSNum
  w : JSNum
  h : List JSNum

/-- `[x,y,z,u,v,w] = [0.1,0.1,0.1,0,0,0]`, harmonics all zero
(spiral.js lines 38-39). -/
def initialState (numHarmonics : ℕ) : SpiralState :=
  ⟨num 0.1, num 0.1, num 0.1, num 0, num 0, num 0, List.replicate numHarmonics (num 0)⟩

/-- The flat state vector pushed into `points` (spiral.js line 85):
`[x, y, z, u, v, w, ...harmonics]`. -/
def SpiralState.toPoint (s : SpiralState) : List JSNum :=
  [s.x, s.y, s.z, s.u, s.v, s.w] ++ s.h

/-- The instability check of spiral.js lines 88-90: every component of the
state just computed is finite. -/
def SpiralState.finiteCheck (s : SpiralState) : Bool :=
  s.x.isFinite && s.y.isFinite && s.z.isFinite &&
  s.u.isFinite && s.v.isFinite && s.w.isFinite && s.h.all JSNum.isFinite

/-- All seven validated parameter values are finite numbers. -/
def PV.AllNum (pv : PV) : Prop :=
  JSNum.IsNum pv.alpha ∧ JSNum.IsNum pv.beta ∧ JSNum.IsNum pv.gamma ∧ JSNum.IsNum pv.omega ∧
  JSNum.IsNum pv.eta ∧ JSNum.IsNum pv.theta ∧ JSNum.IsNum pv.delta

/-- Every component of the integrator state is a finite number. -/
def SpiralState.AllNum (s : SpiralState) : Prop :=
  JSNum.IsNum s.x ∧ JSNum.IsNum s.y ∧ JSNum.IsNum s.z ∧ JSNum.IsNum s.u ∧
  JSNum.IsNum s.v ∧ JSNum.IsNum s.w ∧ ∀ f ∈ s.h, JSNum.IsNum f

/-- The inductive bound on the harmonic bank before loop iteration `i`:
each amplitude is a finite number of magnitude at most `i * dt`, strictly
below `i * dt` once at least one step was taken. -/
def HarmBound (d : ℝ) (i : ℕ) (s : SpiralState) : Prop :=
  ∀ k, k < s.h.length →
    ∃ r : ℝ, s.h.getD k JSNum.nan = JSNum.num r ∧ |r| ≤ i * d ∧ (1 ≤ i → |r| < i * d)

/-- The harmonic derivative bank of one step (spiral.js lines 59-76):
for each `j`, a phase-shifted sine (even `j`) or cosine (odd `j`) driver
scaled by the precomputed weight, linear damping `-delta * h[j]`, the
nonlinear coupling `h[j-1] * h[j] * 0.0001` for `j > 0`, all clamped by
`Math.tanh`. -/
noncomputable def dharmonicsF (delta : JSNum) (primes : List ℕ) (scales : List ℝ)
    (h : List JSNum) (phi : JSNum) : List JSNum :=
  (List.range primes.length).map (fun j =>
    let prime : ℕ := primes.getD j 0
    let scale : ℝ := scales.getD j 0
    let phaseShift : ℝ := (j * Real.pi) / primes.length
    let harmonicDriver :=
      if j % 2 = 0 then sin (add (mul (mul (num prime) (num Real.pi)) phi) (num phaseShift))
      else cos (add (mul (mul (num prime) (num Real.pi)) phi) (num phaseShift))
    let couplingTerm :=
      if j = 0 then num 0 else mul (mul (h.getD (j - 1) nan) (h.getD j nan)) (num 0.0001)
    tanh (add (sub (mul harmonicDriver (num scale)) (mul delta (h.getD j nan))) couplingTerm))

/-- One loop iteration of the integrator (spiral.js lines 43-83): compute
`phi`, `phi_dot`, the coupling term, the velocity derivatives, the harmonic
derivatives, and take one explicit Euler step. -/
noncomputable def stepF (pv : PV) (primes : List ℕ) (scales : List ℝ) (dt : JSNum)
    (i : ℕ) (s : SpiralState) : SpiralState :=
  let phi := add (cos (mul (mul pv.omega (num i)) dt)) (mul pv.eta (cos pv.theta))
  let phi_dot := mul (neg pv.omega) (sin (mul (mul pv.omega (num i)) dt))
  let harmonicCoupling := calculateHarmonicCoupling s.h primes (mul (num i) dt) 0.001
  let du := add (add (add (mul (neg pv.alpha) s.u) (mul (cos s.y) s.v)) phi_dot)
    harmonicCoupling
  let dv := add (add (add (mul (neg pv.beta) s.v) (mul (cos s.z) s.w)) phi_dot)
    (mul harmonicCoupling (num 0.8))
  let dw := add (add (add (mul (neg pv.gamma) s.w) (mul (cos s.x) s.u)) phi_dot)
    (mul harmonicCoupling (num 1.2))
  let dhs := dharmonicsF pv.delta primes scales s.h phi
  { x := add s.x (mul s.u dt), y := add s.y (mul s.v dt), z := add s.z (mul s.w dt),
    u := add s.u (mul du dt), v := add s.v (mul dv dt), w := add s.w (mul dw dt),
    h := List.zipWith (fun hj dhj => add hj (mul dhj dt)) s.h dhs }

/-- The integration loop (spiral.js lines 42-94): at step `i`, advance the
state, push the new flat state vector, then run the instability check; on a
non-finite component the loop breaks with the just-pushed vector as the
last entry.  The accumulator holds the pushed vectors newest-first. -/
noncomputable def runLoop (pv : PV) (primes : List ℕ) (scales : List ℝ) (dt : JSNum) :
    ℕ → ℕ → SpiralState → List (List JSNum) → List (List JSNum)
  | 0, _, _, acc => acc.reverse
  | fuel + 1, i, s, acc =>
    let s1 := stepF pv primes scales dt i s
    if s1.finiteCheck then runLoop pv primes scales dt fuel (i + 1) s1 (s1.toPoint :: acc)
    else (s1.toPoint :: acc).reverse

/-- The harmonic scale table (spiral.js line 36):
`primes.map((prime, i) => getHarmonicWeight(prime, i, numHarmonics))`,
as a map over the index range. -/
noncomputable def harmonicScales : List ℝ :=
  (List.range primes50.length).map
    (fun i => getHarmonicWeight (primes50.getD i 0) i primes50.length)

/-- The loop bound extracted from a validated `steps` value: for an integral
finite number this is its value. -/
noncomputable def stepsNat : JSNum → ℕ
  | num x => (⌊x⌋).toNat
  | _ => 0

/-- A parameter fails the per-field check of spiral.js lines 22-27 when it
is missing / not a number, or is NaN. -/
def paramBad (f : Option JSNum) : Prop :=
  f = none ∨ f = some nan

open Classical in
/-- `generateSpiral(params, steps, dt)` (spiral.js lines 4-100): the
validation chain, then the integration loop over the first 50 extended
primes.  `Except.error` models a thrown `Error` with its message. -/
noncomputable def generateSpiral (params : Option SpiralParams) (steps dt : JSNum) :
    Except String (List (List JSNum)) :=
  match params with
  | none => Except.error "Parameters must be provided as an object"
  | some p =>
    if ¬ steps.isInteger ∨ jsLt steps (num 1) ∨ jsLt (num 100000) steps then
      Except.error "Steps must be an integer between 1 and 100000"
    else if jsLe dt (num 0) ∨ jsLt (num 1) dt then
      Except.error "Time step dt must be a positive number <= 1"
    else if paramBad p.alpha then Except.error "Parameter alpha must be a valid number"
    else if paramBad p.beta then Except.error "Parameter beta must be a valid number"
    else if paramBad p.gamma then Except.error "Parameter gamma must be a valid number"
    else if paramBad p.omega then Except.error "Parameter omega must be a valid number"
    else if paramBad p.eta then Except.error "Parameter eta must be a valid number"
    else if paramBad p.theta then Except.error "Parameter theta must be a valid number"
    else if paramBad p.delta then Except.error "Parameter delta must be a valid number"
    else
      Except.ok (runLoop p.extract primes50 harmonicScales dt (stepsNat steps) 0
        (initialState primes50.length) [])

/-! ## The projector: `projectSpiral` (projection.js, lines 4-79)

The projector only ever receives finite data in the claims under study, so
it is modelled over plain `ℝ`.  `p.getD i 0` models `p[i] || 0` (an index
beyond the row gives `undefined`, which `|| 0` turns into `0`).  The
external `ml-pca` call is the oracle argument `pca`; `Except.error` models
a throw inside the library, caught by the `try/catch` of lines 9-51. -/

/-- The JS `%` remainder on real operands: `a - b * trunc(a / b)`,
truncation toward zero, so the result keeps the sign of the dividend. -/
noncomputable def jsRem (a b : ℝ) : ℝ :=
  a - b * (if 0 ≤ a / b then (⌊a / b⌋ : ℝ) else (⌈a / b⌉ : ℝ))

/-- The dimension-subsampling prefilter (projection.js lines 15-22): the six
base coordinates, then every fifth harmonic coordinate `i = 6, 11, 16, …`,
of which there are `⌈(len - 6) / 5⌉`. -/
def sampledPoint (p : List ℝ) : List ℝ :=
  p.take 6 ++ (List.range' 6 ((p.length - 6 + 4) / 5) 5).map (fun i => p.getD i 0)

/-- `harmonicSum` for one sample (projection.js lines 62-68):
`(Σ_{i=6}^{len-1} (p[i] || 0) * cos(i * 0.1)) * 0.1`.  The index `i` is the
position in the flat state vector, starting at the first harmonic. -/
noncomputable def harmonicSumOfPoint (p : List ℝ) : ℝ :=
  ((List.range' 6 (p.length - 6)).foldl
    (fun sum i => sum + p.getD i 0 * Real.cos (i * 0.1)) 0) * 0.1

/-- The color triple for one sample (projection.js lines 70-74), built from
`h1,h2,h3 = p[6],p[7],p[8]` and the harmonic sum. -/
noncomputable def colorOfPoint (p : List ℝ) : List ℝ :=
  [jsRem (p.getD 6 0 + harmonicSumOfPoint p * 0.5) 1,
   jsRem (p.getD 7 0 + harmonicSumOfPoint p * 0.3) 1,
   jsRem (p.getD 8 0 + harmonicSumOfPoint p * 0.7) 1]

/-- The size for one sample (projection.js line 75), from `h4 = p[9]`:
`Math.abs(v + harmonicSum * 0.2) * 2 + 1`. -/
noncomputable def sizeOfPoint (p : List ℝ) : ℝ :=
  |p.getD 9 0 + harmonicSumOfPoint p * 0.2| * 2 + 1

/-- The opacity for one sample (projection.js line 76), from `h5 = p[10]`:
`0.5 + 0.5 * Math.tanh(v + harmonicSum * 0.1)`. -/
noncomputable def opacityOfPoint (p : List ℝ) : ℝ :=
  0.5 + 0.5 * Real.tanh (p.getD 10 0 + harmonicSumOfPoint p * 0.1)

/-- The result record of `projectSpiral` (projection.js line 78). -/
structure ProjResult where
  X : List ℝ
  Y : List ℝ
  Z : List ℝ
  color : List (List ℝ)
  size : List ℝ
  opacity : List ℝ

/-- `projectSpiral(points)` (projection.js lines 4-79), parameterized by the
`ml-pca` oracle: high-dimensional data (row width above 50) is subsampled
and the projection scaled by 10; any library failure falls back to the raw
first three coordinates; the encodings are mapped over the samples. -/
noncomputable def projectSpiral (pca : List (List ℝ) → Except String (List (List ℝ)))
    (points : List (List ℝ)) : ProjResult :=
  let attempt : Except String (List ℝ × List ℝ × List ℝ) :=
    if 50 < (points.headD []).length then
      match pca (points.map sampledPoint) with
      | Except.ok proj =>
        Except.ok (proj.map (fun p => p.getD 0 0 * 10), proj.map (fun p => p.getD 1 0 * 10),
          proj.map (fun p => p.getD 2 0 * 10))
      | Except.error e => Except.error e
    else
      match pca points with
      | Except.ok proj =>
        Except.ok (proj.map (fun p => p.getD 0 0), proj.map (fun p => p.getD 1 0),
          proj.map (fun p => p.getD 2 0))
      | Except.error e => Except.error e
  let xyz : List ℝ × List ℝ × List ℝ := match attempt with
    | Except.ok v => v
    | Except.error _ =>
      (points.map (fun p => p.getD 0 0), points.map (fun p => p.getD 1 0),
        points.map (fun p => p.getD 2 0))
  { X := xyz.1, Y := xyz.2.1, Z := xyz.2.2,
    color := points.map colorOfPoint,
    size := points.map sizeOfPoint,
    opacity := points.map opacityOfPoint }

/-- Whether a call result is a normal return (no exception). -/
def isOkB {α : Type} (r : Except String α) : Bool :=
  match r with
  | Except.ok _ => true
  | Except.error _ => false

/-- The spec's default-scenario parameter object: alpha 0.1, beta 0.1,
gamma 0.1, omega 1.0, eta 0.1, theta 0.0, delta 0.05, all finite numbers. -/
def defaultParams : SpiralParams :=
  ⟨some (num 0.1), some (num 0.1), some (num 0.1), some (num 1),
   some (num 0.1), some (num 0), some (num 0.05)⟩

/-- The same parameter object with omega replaced by +Infinity: every field
holds a JS number and none is NaN. -/
def infOmegaParams : SpiralParams :=
  ⟨some (num 0.1), some (num 0.1), some (num 0.1), some inf,
   some (num 0.1), some (num 0), some (num 0.05)⟩

/-! ## Theorems

### Correctness of the sieve (claim C6) -/

theorem getD_set_false (s : List Bool) (j k : ℕ) :
    (s.set j false).getD k false = if k = j then false else s.getD k false := by
  induction s generalizing j k with
  | nil => simp [List.getD]
  | cons a t ih =>
    cases j with
    | zero => cases k <;> simp [List.getD]
    | succ j =>
      cases k with
      | zero => simp [List.getD]
      | succ k => simpa [List.getD] using ih j k

theorem foldl_set_false_getD (js : List ℕ) (s : List Bool) (k : ℕ) :
    (js.foldl (fun acc j => acc.set j false) s).getD k false
      = if k ∈ js then false else s.getD k false := by
  induction js generalizing s with
  | nil => simp
  | cons j t ih =>
    simp only [List.foldl_cons, ih, getD_set_false, List.mem_cons]
    by_cases h1 : k ∈ t
    · simp [h1]
    · by_cases h2 : k = j <;> simp [h1, h2]

theorem mem_clear_range {limit i : ℕ} (k : ℕ) (hi : 0 < i) (hle : i * i ≤ limit) :
    (k ∈ List.range' (i * i) ((limit - i * i) / i + 1) i) ↔ (i * i ≤ k ∧ k ≤ limit ∧ i ∣ k) := by
  rw [List.mem_range']
  constructor
  · rintro ⟨t, ht, rfl⟩
    have ht' : t ≤ (limit - i * i) / i := by omega
    have h2 : t * i ≤ limit - i * i := (Nat.le_div_iff_mul_le hi).mp ht'
    rw [Nat.mul_comm t i] at h2
    refine ⟨by omega, by omega, ⟨i + t, by ring⟩⟩
  · rintro ⟨h1, h2, m, rfl⟩
    have him : i ≤ m := by
      by_contra hmlt
      push_neg at hmlt
      have : i * m < i * i := (Nat.mul_lt_mul_left hi).mpr hmlt
      omega
    refine ⟨m - i, ?_, ?_⟩
    · have hms : i * (m - i) = i * m - i * i := by rw [Nat.mul_sub]
      have hmul : (m - i) * i ≤ limit - i * i := by
        rw [Nat.mul_comm (m - i) i]
        omega
      have := (Nat.le_div_iff_mul_le hi).mpr hmul
      omega
    · have : i * (m - i) = i * m - i * i := by rw [Nat.mul_sub]
      omega

theorem sieveInv_init (limit : ℕ) :
    SieveInv limit 2 (((List.replicate (limit + 1) true).set 0 false).set 1 false) := by
  intro k hk
  rw [getD_set_false, getD_set_false]
  rcases Nat.lt_or_ge k 2 with hk2 | hk2
  · interval_cases k <;> simp
  · have h0 : ¬ (k = 0) := by omega
    have h1 : ¬ (k = 1) := by omega
    rw [if_neg h1, if_neg h0]
    have : (List.replicate (limit + 1) true).getD k false = true := by
      simp [List.getD, List.getElem?_replicate, Nat.lt_succ_of_le hk]
    rw [this]
    simp only [true_iff]
    exact ⟨hk2, fun p hp hplt => absurd hp.two_le (by omega)⟩

theorem minFac_sq_le_of_not_prime {n : ℕ} (h2 : 2 ≤ n) (hnp : ¬ Nat.Prime n) :
    n.minFac * n.minFac ≤ n := by
  obtain ⟨m, hm⟩ := Nat.minFac_dvd n
  have hm0 : m ≠ 0 := by rintro rfl; omega
  have hm1 : m ≠ 1 := by
    rintro rfl
    rw [Nat.mul_one] at hm
    exact hnp (hm ▸ Nat.minFac_prime (by omega))
  rw [Nat.mul_comm n.minFac m] at hm
  have hmf : n.minFac ≤ m := Nat.minFac_le_of_dvd (by omega) ⟨n.minFac, hm⟩
  calc n.minFac * n.minFac ≤ n.minFac * m := Nat.mul_le_mul_left _ hmf
    _ = m * n.minFac := Nat.mul_comm _ _
    _ = n := hm.symm

theorem prime_of_inv_true {limit c : ℕ} {s : List Bool} (inv : SieveInv limit c s)
    (hc2 : 2 ≤ c) (hcl : c ≤ limit) (h : s.getD c false = true) : Nat.Prime c := by
  rcases (inv c hcl).mp h with ⟨-, hnp⟩
  by_contra hcomp
  have hp : (c.minFac).Prime := Nat.minFac_prime (by omega)
  have hsq : c.minFac * c.minFac ≤ c := minFac_sq_le_of_not_prime hc2 hcomp
  have hlt : c.minFac < c := by nlinarith [hp.two_le]
  exact hnp c.minFac hp hlt ⟨Nat.minFac_dvd c, hsq⟩

theorem not_prime_of_inv_false {limit c : ℕ} {s : List Bool} (inv : SieveInv limit c s)
    (hc2 : 2 ≤ c) (hcl : c ≤ limit) (h : ¬ (s.getD c false = true)) : ¬ Nat.Prime c := by
  intro hcp
  apply h
  refine (inv c hcl).mpr ⟨hc2, ?_⟩
  rintro p hp hplt ⟨hdvd, -⟩
  rcases (Nat.Prime.eq_one_or_self_of_dvd hcp p hdvd) with h1 | rfl
  · exact hp.ne_one h1
  · omega

theorem sieveInv_step {limit c : ℕ} {s : List Bool} (hc2 : 2 ≤ c) (hcc : c * c ≤ limit)
    (inv : SieveInv limit c s) : SieveInv limit (c + 1) (sieveStep limit s c) := by
  have hcl : c ≤ limit := by nlinarith
  intro k hk
  unfold sieveStep
  by_cases hsc : s.getD c false = true
  · have hcp : Nat.Prime c := prime_of_inv_true inv hc2 hcl hsc
    rw [if_pos hsc, foldl_set_false_getD]
    by_cases hmem : c * c ≤ k ∧ k ≤ limit ∧ c ∣ k
    · rw [if_pos ((mem_clear_range k (by omega) hcc).mpr hmem)]
      constructor
      · intro h
        exact absurd h (by simp)
      · rintro ⟨-, hall⟩
        exact absurd ⟨hmem.2.2, hmem.1⟩ (hall c hcp (by omega))
    · rw [if_neg (fun hm => hmem ((mem_clear_range k (by omega) hcc).mp hm)), inv k hk]
      constructor
      · rintro ⟨hk2, hall⟩
        refine ⟨hk2, ?_⟩
        rintro p hp hplt ⟨hdvd, hpk⟩
        rcases Nat.lt_succ_iff_lt_or_eq.mp hplt with h' | rfl
        · exact hall p hp h' ⟨hdvd, hpk⟩
        · exact hmem ⟨hpk, hk, hdvd⟩
      · rintro ⟨hk2, hall⟩
        exact ⟨hk2, fun p hp hplt => hall p hp (by omega)⟩
  · rw [if_neg hsc, inv k hk]
    have hcnp : ¬ Nat.Prime c := not_prime_of_inv_false inv hc2 hcl hsc
    constructor
    · rintro ⟨hk2, hall⟩
      refine ⟨hk2, ?_⟩
      intro p hp hplt
      rcases Nat.lt_succ_iff_lt_or_eq.mp hplt with h' | rfl
      · exact hall p hp h'
      · exact absurd hp hcnp
    · rintro ⟨hk2, hall⟩
      exact ⟨hk2, fun p hp hplt => hall p hp (by omega)⟩

theorem inv_final {limit c : ℕ} {s : List Bool} (hc : Nat.sqrt limit < c)
    (inv : SieveInv limit c s) (k : ℕ) (hk : k ≤ limit) :
    (s.getD k false = true ↔
      2 ≤ k ∧ ∀ p, Nat.Prime p → p * p ≤ limit → ¬(p ∣ k ∧ p * p ≤ k)) := by
  rw [inv k hk]
  constructor
  · rintro ⟨hk2, hall⟩
    refine ⟨hk2, ?_⟩
    intro p hp hpl
    have : p ≤ Nat.sqrt limit := Nat.le_sqrt.mpr hpl
    exact hall p hp (by omega)
  · rintro ⟨hk2, hall⟩
    refine ⟨hk2, ?_⟩
    rintro p hp hplt ⟨hdvd, hpk⟩
    exact hall p hp (le_trans hpk hk) ⟨hdvd, hpk⟩

theorem sieveLoop_final {limit : ℕ} :
    ∀ (fuel c : ℕ) (s : List Bool), 2 ≤ c → Nat.sqrt limit + 1 ≤ c + fuel →
    SieveInv limit c s →
    ∀ k, k ≤ limit →
      ((sieveLoop limit fuel s c).getD k false = true ↔
        2 ≤ k ∧ ∀ p, Nat.Prime p → p * p ≤ limit → ¬(p ∣ k ∧ p * p ≤ k)) := by
  intro fuel
  induction fuel with
  | zero =>
    intro c s hc2 hfuel inv k hk
    exact inv_final (by omega) inv k hk
  | succ fuel ih =>
    intro c s hc2 hfuel inv k hk
    rw [sieveLoop]
    by_cases hguard : c * c ≤ limit
    · rw [if_pos hguard]
      exact ih (c + 1) _ (by omega) (by omega) (sieveInv_step hc2 hguard inv) k hk
    · rw [if_neg hguard]
      have : Nat.sqrt limit < c := by
        by_contra hle
        push_neg at hle
        exact hguard (Nat.le_sqrt.mp hle)
      exact inv_final this inv k hk

theorem sieveRun_getD (limit k : ℕ) (hk : k ≤ limit) :
    ((sieveRun limit).getD k false = true ↔
      2 ≤ k ∧ ∀ p, Nat.Prime p → p * p ≤ limit → ¬(p ∣ k ∧ p * p ≤ k)) := by
  have hs := Nat.sqrt_le_self limit
  exact sieveLoop_final (limit + 1) 2 _ (by omega) (by omega) (sieveInv_init limit) k hk

theorem no_small_factor_iff_prime {k limit : ℕ} (h2 : 2 ≤ k) (hk : k ≤ limit) :
    (∀ p, Nat.Prime p → p * p ≤ limit → ¬(p ∣ k ∧ p * p ≤ k)) ↔ Nat.Prime k := by
  constructor
  · intro hall
    by_contra hnp
    have hp := Nat.minFac_prime (show k ≠ 1 by omega)
    have hsq : k.minFac * k.minFac ≤ k := minFac_sq_le_of_not_prime h2 hnp
    exact hall k.minFac hp (le_trans hsq hk) ⟨Nat.minFac_dvd k, hsq⟩
  · rintro hkp p hp hpl ⟨hdvd, hpk⟩
    rcases (Nat.Prime.eq_one_or_self_of_dvd hkp p hdvd) with h1 | rfl
    · exact hp.ne_one h1
    · nlinarith [hp.two_le]

theorem bool_eq_decide {b : Bool} {P : Prop} [Decidable P] (h : b = true ↔ P) : b = decide P := by
  by_cases hp : P
  · rw [h.mpr hp, decide_eq_true hp]
  · have hb : b = false := by
      rw [Bool.eq_false_iff]
      exact fun hb => hp (h.mp hb)
    rw [hb, decide_eq_false hp]

theorem sieve_eq_filter (limit : ℕ) :
    sieveOfEratosthenes limit = (List.range (limit + 1)).filter (fun k => decide (Nat.Prime k)) := by
  unfold sieveOfEratosthenes
  have h1 : (List.range' 2 (limit - 1)).filter (fun k => (sieveRun limit).getD k false)
      = (List.range' 2 (limit - 1)).filter (fun k => decide (Nat.Prime k)) := by
    apply List.filter_congr
    intro k hkmem
    rw [List.mem_range'] at hkmem
    obtain ⟨t, ht, hkeq⟩ := hkmem
    have hkl : k ≤ limit := by omega
    apply bool_eq_decide
    rw [sieveRun_getD limit k hkl]
    constructor
    · rintro ⟨h2, hall⟩
      exact (no_small_factor_iff_prime h2 hkl).mp hall
    · intro hp
      exact ⟨hp.two_le, (no_small_factor_iff_prime hp.two_le hkl).mpr hp⟩
  rw [h1]
  match limit with
  | 0 => decide
  | 1 => decide
  | (n + 2) =>
    have hr : List.range (n + 3) = 0 :: 1 :: List.range' 2 (n + 1) := by
      rw [List.range_eq_range', List.range'_succ, List.range'_succ]
    rw [hr]
    simp [Nat.not_prime_zero, Nat.not_prime_one]

/-- C6: `generatePrimes(limit)` — the sieve of Eratosthenes — returns, for
every `limit`, exactly the primes up to `limit` (the primality filter of
`0..limit`), in strictly ascending order; in particular
`generatePrimes(30) = [2,3,5,7,11,13,17,19,23,29]`; and for every
`limit < 2` the result is the empty list rather than an error. -/
theorem C6_generatePrimes_correct :
    (∀ limit : ℕ, sieveOfEratosthenes limit
        = (List.range (limit + 1)).filter (fun k => decide (Nat.Prime k))) ∧
    (∀ limit : ℕ, (sieveOfEratosthenes limit).Sorted (· < ·)) ∧
    sieveOfEratosthenes 30 = [2, 3, 5, 7, 11, 13, 17, 19, 23, 29] ∧
    (∀ limit : ℕ, limit < 2 → sieveOfEratosthenes limit = []) := by
  refine ⟨sieve_eq_filter, ?_, by decide, ?_⟩
  · intro limit
    rw [sieve_eq_filter]
    exact (List.pairwise_lt_range (limit + 1)).sublist (List.filter_sublist _)
  · intro limit h
    interval_cases limit <;> decide

/-- Witness for C6: evaluating the sieve at the concrete limits 30 and 1. -/
theorem C6_generatePrimes_correct_witness :
    sieveOfEratosthenes 30 = [2, 3, 5, 7, 11, 13, 17, 19, 23, 29] ∧
    sieveOfEratosthenes 1 = [] :=
  ⟨C6_generatePrimes_correct.2.2.1, C6_generatePrimes_correct.2.2.2 1 (by norm_num)⟩

/-! ### JSNum computation rules -/

namespace JSNum

@[simp] theorem add_num_num (a b : ℝ) : add (num a) (num b) = num (a + b) := rfl

@[simp] theorem add_nan_left (x : JSNum) : add nan x = nan := by cases x <;> rfl

@[simp] theorem add_nan_right (x : JSNum) : add x nan = nan := by cases x <;> rfl

@[simp] theorem neg_num (a : ℝ) : neg (num a) = num (-a) := rfl

@[simp] theorem neg_inf : neg inf = ninf := rfl

@[simp] theorem neg_ninf : neg ninf = inf := rfl

@[simp] theorem neg_nan : neg nan = nan := rfl

@[simp] theorem mul_num_num (a b : ℝ) : mul (num a) (num b) = num (a * b) := rfl

@[simp] theorem mul_nan_left (x : JSNum) : mul nan x = nan := by cases x <;> rfl

@[simp] theorem mul_nan_right (x : JSNum) : mul x nan = nan := by cases x <;> rfl

theorem mul_inf_num (b : ℝ) :
    mul inf (num b) = if b = 0 then nan else if 0 < b then inf else ninf := rfl

theorem mul_ninf_num (b : ℝ) :
    mul ninf (num b) = if b = 0 then nan else if 0 < b then ninf else inf := rfl

@[simp] theorem sub_num_num (a b : ℝ) : sub (num a) (num b) = num (a - b) := by
  simp [sub, sub_eq_add_neg]

@[simp] theorem sub_nan_left (x : JSNum) : sub nan x = nan := by cases x <;> rfl

@[simp] theorem sub_nan_right (x : JSNum) : sub x nan = nan := by cases x <;> rfl

@[simp] theorem cos_num (a : ℝ) : cos (num a) = num (Real.cos a) := rfl

@[simp] theorem cos_nan : cos nan = nan := rfl

@[simp] theorem cos_inf : cos inf = nan := rfl

@[simp] theorem cos_ninf : cos ninf = nan := rfl

@[simp] theorem sin_num (a : ℝ) : sin (num a) = num (Real.sin a) := rfl

@[simp] theorem sin_nan : sin nan = nan := rfl

@[simp] theorem sin_inf : sin inf = nan := rfl

@[simp] theorem sin_ninf : sin ninf = nan := rfl

@[simp] theorem tanh_num (a : ℝ) : tanh (num a) = num (Real.tanh a) := rfl

@[simp] theorem tanh_nan : tanh nan = nan := rfl

@[simp] theorem isFinite_num (a : ℝ) : (num a).isFinite = true := rfl

@[simp] theorem isFinite_nan : nan.isFinite = false := rfl

@[simp] theorem isFinite_inf : inf.isFinite = false := rfl

@[simp] theorem isFinite_ninf : ninf.isFinite = false := rfl

theorem IsNum.num (a : ℝ) : IsNum (num a) := ⟨a, rfl⟩

theorem IsNum.add {a b : JSNum} (ha : IsNum a) (hb : IsNum b) : IsNum (add a b) := by
  obtain ⟨x, rfl⟩ := ha
  obtain ⟨y, rfl⟩ := hb
  exact ⟨x + y, rfl⟩

theorem IsNum.mul {a b : JSNum} (ha : IsNum a) (hb : IsNum b) : IsNum (mul a b) := by
  obtain ⟨x, rfl⟩ := ha
  obtain ⟨y, rfl⟩ := hb
  exact ⟨x * y, rfl⟩

theorem IsNum.neg {a : JSNum} (ha : IsNum a) : IsNum (neg a) := by
  obtain ⟨x, rfl⟩ := ha
  exact ⟨-x, rfl⟩

theorem IsNum.sub {a b : JSNum} (ha : IsNum a) (hb : IsNum b) : IsNum (sub a b) := by
  obtain ⟨x, rfl⟩ := ha
  obtain ⟨y, rfl⟩ := hb
  exact ⟨x - y, by simp⟩

theorem IsNum.cos {a : JSNum} (ha : IsNum a) : IsNum (cos a) := by
  obtain ⟨x, rfl⟩ := ha
  exact ⟨Real.cos x, rfl⟩

theorem IsNum.sin {a : JSNum} (ha : IsNum a) : IsNum (sin a) := by
  obtain ⟨x, rfl⟩ := ha
  exact ⟨Real.sin x, rfl⟩

theorem IsNum.tanh {a : JSNum} (ha : IsNum a) : IsNum (tanh a) := by
  obtain ⟨x, rfl⟩ := ha
  exact ⟨Real.tanh x, rfl⟩

theorem IsNum.isFinite {a : JSNum} (ha : IsNum a) : a.isFinite = true := by
  obtain ⟨x, rfl⟩ := ha
  rfl

end JSNum

/-- `|tanh x| < 1` over the reals: the clamping property the integrator
relies on (spiral.js line 75). -/
theorem abs_tanh_lt_one (x : ℝ) : |Real.tanh x| < 1 := by
  rw [abs_lt, Real.tanh_eq_sinh_div_cosh]
  constructor
  · rw [lt_div_iff₀ (Real.cosh_pos x)]
    have h := Real.sinh_lt_cosh (-x)
    rw [Real.sinh_neg, Real.cosh_neg] at h
    linarith
  · rw [div_lt_one (Real.cosh_pos x)]
    exact Real.sinh_lt_cosh x

/-! ### Finite-parameter propagation through the integrator -/

namespace JSNum

theorem isNum_foldl {α : Type} (f : JSNum → α → JSNum) (l : List α) (acc : JSNum)
    (hacc : IsNum acc) (hf : ∀ a x, x ∈ l → IsNum a → IsNum (f a x)) :
    IsNum (l.foldl f acc) := by
  induction l generalizing acc with
  | nil => simpa using hacc
  | cons x t ih =>
    rw [List.foldl_cons]
    exact ih (f acc x) (hf acc x (by simp) hacc) (fun a y hy => hf a y (by simp [hy]))

theorem isNum_getD {l : List JSNum} (hl : ∀ f ∈ l, IsNum f) {i : ℕ} (hi : i < l.length) :
    IsNum (l.getD i nan) := by
  rw [List.getD_eq_getElem?_getD, List.getElem?_eq_getElem hi]
  exact hl _ (List.getElem_mem hi)

end JSNum

open JSNum in
theorem coupling_isNum (harmonics : List JSNum) (primes : List ℕ) (time : JSNum) (c : ℝ)
    (hh : ∀ f ∈ harmonics, IsNum f) (ht : IsNum time) :
    IsNum (calculateHarmonicCoupling harmonics primes time c) := by
  unfold calculateHarmonicCoupling
  apply IsNum.tanh
  apply IsNum.mul _ ⟨c, rfl⟩
  apply isNum_foldl
  · apply isNum_foldl
    · exact ⟨0, rfl⟩
    · intro a i hi ha
      apply ha.add
      unfold couplingTermAt
      apply IsNum.tanh
      have hilt : i < harmonics.length := by
        have := List.mem_range.mp hi
        omega
      exact ((isNum_getD hh hilt).mul ⟨_, rfl⟩).mul
        (IsNum.cos ((IsNum.mul (IsNum.mul ⟨_, rfl⟩ ht) ⟨_, rfl⟩)))
  · intro a i hi ha
    apply isNum_foldl _ _ _ ha
    intro a2 j hj ha2
    have hilt : i < harmonics.length := by
      have := List.mem_range.mp hi
      omega
    have hjlt : j < harmonics.length := by
      rw [List.mem_range'] at hj
      obtain ⟨t, htl, rfl⟩ := hj
      omega
    apply ha2.add
    unfold crossTermAt
    apply IsNum.mul _ ⟨_, rfl⟩
    exact ((isNum_getD hh hilt).tanh.mul (isNum_getD hh hjlt).tanh).mul
      (IsNum.sin ((IsNum.mul (IsNum.mul ⟨_, rfl⟩ ht) ⟨_, rfl⟩)))

open JSNum in
theorem dharmonics_tanh (delta : JSNum) (primes : List ℕ) (scales : List ℝ)
    (h : List JSNum) (phi : JSNum) (hd : IsNum delta) (hphi : IsNum phi)
    (hh : ∀ f ∈ h, IsNum f) (hlen : primes.length ≤ h.length) :
    ∀ g ∈ dharmonicsF delta primes scales h phi, ∃ t : ℝ, g = num (Real.tanh t) := by
  intro g hg
  unfold dharmonicsF at hg
  rw [List.mem_map] at hg
  obtain ⟨j, hj, rfl⟩ := hg
  have hjlen : j < h.length := lt_of_lt_of_le (List.mem_range.mp hj) hlen
  have hD : IsNum (if j % 2 = 0 then
      sin (add (mul (mul (num (primes.getD j 0)) (num Real.pi)) phi) (num ((j * Real.pi) / primes.length)))
    else
      cos (add (mul (mul (num (primes.getD j 0)) (num Real.pi)) phi) (num ((j * Real.pi) / primes.length)))) := by
    have harg : IsNum (add (mul (mul (num (primes.getD j 0)) (num Real.pi)) phi)
        (num ((j * Real.pi) / primes.length))) :=
      (IsNum.mul (IsNum.mul ⟨_, rfl⟩ ⟨_, rfl⟩) hphi).add ⟨_, rfl⟩
    split
    · exact harg.sin
    · exact harg.cos
  have hC : IsNum (if j = 0 then num 0
      else mul (mul (h.getD (j - 1) nan) (h.getD j nan)) (num 0.0001)) := by
    split
    · exact ⟨0, rfl⟩
    · exact ((isNum_getD hh (by omega)).mul (isNum_getD hh hjlen)).mul ⟨_, rfl⟩
  obtain ⟨t, ht⟩ :=
    ((hD.mul ⟨_, rfl⟩).sub (hd.mul (isNum_getD hh hjlen))).add hC
  refine ⟨t, ?_⟩
  dsimp only
  rw [ht, tanh_num]

open JSNum in
theorem allNum_finiteCheck {s : SpiralState} (hs : s.AllNum) : s.finiteCheck = true := by
  obtain ⟨hx, hy, hz, hu, hv, hw, hh⟩ := hs
  unfold SpiralState.finiteCheck
  rw [hx.isFinite, hy.isFinite, hz.isFinite, hu.isFinite, hv.isFinite, hw.isFinite]
  simp only [Bool.true_and, Bool.and_true]
  rw [List.all_eq_true]
  exact fun f hf => (hh f hf).isFinite

open JSNum in
theorem toPoint_all_finite {s : SpiralState} (hs : s.AllNum) :
    s.toPoint.all JSNum.isFinite = true := by
  obtain ⟨hx, hy, hz, hu, hv, hw, hh⟩ := hs
  unfold SpiralState.toPoint
  rw [List.all_eq_true]
  intro f hf
  simp only [List.mem_append, List.mem_cons] at hf
  rcases hf with (rfl | rfl | rfl | rfl | rfl | rfl | h) | hmem
  · exact hx.isFinite
  · exact hy.isFinite
  · exact hz.isFinite
  · exact hu.isFinite
  · exact hv.isFinite
  · exact hw.isFinite
  · exact absurd h (by simp)
  · exact ((hh f) hmem).isFinite

theorem toPoint_length (s : SpiralState) : s.toPoint.length = 6 + s.h.length := by
  simp [SpiralState.toPoint]
  omega

open JSNum in
theorem toPoint_getD_harm (s : SpiralState) (m : ℕ) (hm : 6 ≤ m) :
    s.toPoint.getD m nan = s.h.getD (m - 6) nan := by
  unfold SpiralState.toPoint
  rw [List.getD_eq_getElem?_getD, List.getD_eq_getElem?_getD,
    List.getElem?_append_right (by simpa using hm)]
  simp

open JSNum in
theorem stepF_allNum {pv : PV} (hpv : pv.AllNum) (primes : List ℕ) (scales : List ℝ)
    (d : ℝ) (i : ℕ) {s : SpiralState} (hs : s.AllNum) (hlen : s.h.length = primes.length) :
    (stepF pv primes scales (num d) i s).AllNum ∧
    (stepF pv primes scales (num d) i s).h.length = s.h.length ∧
    ∀ k, k < s.h.length → ∀ hv : ℝ, s.h.getD k nan = num hv →
      ∃ t : ℝ, (stepF pv primes scales (num d) i s).h.getD k nan
        = num (hv + Real.tanh t * d) := by
  obtain ⟨ha, hb, hg, ho, he, hth, hde⟩ := hpv
  obtain ⟨hx, hy, hz, hu, hv, hw, hh⟩ := hs
  have hdt : IsNum (num d) := ⟨d, rfl⟩
  have hphi : IsNum (add (cos (mul (mul pv.omega (num i)) (num d))) (mul pv.eta (cos pv.theta))) :=
    (IsNum.cos ((ho.mul ⟨_, rfl⟩).mul hdt)).add (he.mul hth.cos)
  have hphidot : IsNum (mul (neg pv.omega) (sin (mul (mul pv.omega (num i)) (num d)))) :=
    ho.neg.mul (IsNum.sin ((ho.mul ⟨_, rfl⟩).mul hdt))
  have hcoup : IsNum (calculateHarmonicCoupling s.h primes (mul (num i) (num d)) 0.001) :=
    coupling_isNum s.h primes _ _ hh (⟨_, rfl⟩ : IsNum (num (i * d)))
  have hdhs := dharmonics_tanh pv.delta primes scales s.h
    (add (cos (mul (mul pv.omega (num i)) (num d))) (mul pv.eta (cos pv.theta)))
    hde hphi hh (le_of_eq hlen.symm)
  have hdhs_len : (dharmonicsF pv.delta primes scales s.h
      (add (cos (mul (mul pv.omega (num i)) (num d))) (mul pv.eta (cos pv.theta)))).length
      = primes.length := by
    unfold dharmonicsF
    simp
  have hdhs_num : ∀ g ∈ dharmonicsF pv.delta primes scales s.h
      (add (cos (mul (mul pv.omega (num i)) (num d))) (mul pv.eta (cos pv.theta))), IsNum g := by
    intro g hg
    obtain ⟨t, rfl⟩ := hdhs g hg
    exact ⟨_, rfl⟩
  unfold stepF
  dsimp only
  refine ⟨⟨hx.add (hu.mul hdt), hy.add (hv.mul hdt), hz.add (hw.mul hdt), ?_, ?_, ?_, ?_⟩, ?_, ?_⟩
  · exact hu.add ((((((ha.neg.mul hu).add (hy.cos.mul hv)).add hphidot).add hcoup)).mul hdt)
  · exact hv.add ((((((hb.neg.mul hv).add (hz.cos.mul hw)).add hphidot).add
      (hcoup.mul ⟨_, rfl⟩))).mul hdt)
  · exact hw.add ((((((hg.neg.mul hw).add (hx.cos.mul hu)).add hphidot).add
      (hcoup.mul ⟨_, rfl⟩))).mul hdt)
  · intro f hf
    rw [List.mem_iff_getElem] at hf
    obtain ⟨k, hk, rfl⟩ := hf
    rw [List.getElem_zipWith]
    have hk1 : k < s.h.length := by
      simp at hk
      omega
    have hk2 : k < (dharmonicsF pv.delta primes scales s.h
        (add (cos (mul (mul pv.omega (num i)) (num d))) (mul pv.eta (cos pv.theta)))).length := by
      simp only [List.length_zipWith, hdhs_len, hlen] at hk ⊢
      omega
    exact (hh _ (List.getElem_mem hk1)).add
      ((hdhs_num _ (List.getElem_mem hk2)).mul hdt)
  · rw [List.length_zipWith, hdhs_len, hlen]
    omega
  · intro k hk hv0 hval
    have hk2 : k < (dharmonicsF pv.delta primes scales s.h
        (add (cos (mul (mul pv.omega (num i)) (num d))) (mul pv.eta (cos pv.theta)))).length := by
      omega
    have hkz : k < (List.zipWith (fun hj dhj => add hj (mul dhj (num d))) s.h
        (dharmonicsF pv.delta primes scales s.h
          (add (cos (mul (mul pv.omega (num i)) (num d))) (mul pv.eta (cos pv.theta))))).length := by
      rw [List.length_zipWith, hdhs_len, hlen]
      omega
    obtain ⟨t, htv⟩ := hdhs _ (List.getElem_mem hk2)
    refine ⟨t, ?_⟩
    rw [List.getD_eq_getElem?_getD, List.getElem?_eq_getElem hkz]
    rw [List.getD_eq_getElem?_getD, List.getElem?_eq_getElem hk] at hval
    simp only [Option.getD_some] at hval ⊢
    rw [List.getElem_zipWith, hval, htv, mul_num_num, add_num_num]

/-! ### The integration loop -/

open JSNum in
theorem runLoop_append (pv : PV) (primes : List ℕ) (scales : List ℝ) (dt : JSNum) :
    ∀ (fuel i : ℕ) (s : SpiralState) (acc : List (List JSNum)),
      runLoop pv primes scales dt fuel i s acc
        = acc.reverse ++ runLoop pv primes scales dt fuel i s [] := by
  intro fuel
  induction fuel with
  | zero => intro i s acc; simp [runLoop]
  | succ fuel ih =>
    intro i s acc
    rw [runLoop, runLoop]
    by_cases hchk : (stepF pv primes scales dt i s).finiteCheck = true
    · rw [if_pos hchk, if_pos hchk, ih (i + 1) _ ((stepF pv primes scales dt i s).toPoint :: acc),
        ih (i + 1) _ [(stepF pv primes scales dt i s).toPoint]]
      simp
    · rw [if_neg hchk, if_neg hchk]
      simp

open JSNum in
theorem runLoop_length_le (pv : PV) (primes : List ℕ) (scales : List ℝ) (dt : JSNum) :
    ∀ (fuel i : ℕ) (s : SpiralState) (acc : List (List JSNum)),
      (runLoop pv primes scales dt fuel i s acc).length ≤ acc.length + fuel := by
  intro fuel
  induction fuel with
  | zero => intro i s acc; simp [runLoop]
  | succ fuel ih =>
    intro i s acc
    rw [runLoop]
    by_cases hchk : (stepF pv primes scales dt i s).finiteCheck = true
    · rw [if_pos hchk]
      have := ih (i + 1) (stepF pv primes scales dt i s)
        ((stepF pv primes scales dt i s).toPoint :: acc)
      simp only [List.length_cons] at this
      omega
    · rw [if_neg hchk]
      simp


open JSNum in
theorem runLoop_full_length {pv : PV} (hpv : pv.AllNum) (primes : List ℕ) (scales : List ℝ)
    (d : ℝ) :
    ∀ (fuel i : ℕ) (s : SpiralState) (acc : List (List JSNum)), s.AllNum →
      s.h.length = primes.length →
      (runLoop pv primes scales (num d) fuel i s acc).length = acc.length + fuel := by
  intro fuel
  induction fuel with
  | zero => intro i s acc _ _; simp [runLoop]
  | succ fuel ih =>
    intro i s acc hs hlen
    obtain ⟨hsn, hln, -⟩ := stepF_allNum hpv primes scales d i hs hlen
    rw [runLoop]
    rw [if_pos (allNum_finiteCheck hsn)]
    rw [ih (i + 1) _ _ hsn (hln.trans hlen)]
    simp only [List.length_cons]
    omega

open JSNum in
theorem toPoint_all_of_finiteCheck {s : SpiralState} (hc : s.finiteCheck = true) :
    s.toPoint.all JSNum.isFinite = true := by
  unfold SpiralState.finiteCheck at hc
  simp only [Bool.and_eq_true] at hc
  obtain ⟨⟨⟨⟨⟨⟨hx, hy⟩, hz⟩, hu⟩, hv⟩, hw⟩, hh⟩ := hc
  unfold SpiralState.toPoint
  rw [List.all_eq_true]
  intro f hf
  simp only [List.mem_append, List.mem_cons] at hf
  rcases hf with (rfl | rfl | rfl | rfl | rfl | rfl | h) | hmem
  · exact hx
  · exact hy
  · exact hz
  · exact hu
  · exact hv
  · exact hw
  · exact absurd h (by simp)
  · rw [List.all_eq_true] at hh
    exact hh f hmem

open JSNum in
theorem runLoop_prefix_finite (pv : PV) (primes : List ℕ) (scales : List ℝ) (dt : JSNum) :
    ∀ (fuel i : ℕ) (s : SpiralState) (acc : List (List JSNum)),
      (∀ p ∈ acc, p.all JSNum.isFinite = true) →
      ∀ idx, idx + 1 < (runLoop pv primes scales dt fuel i s acc).length →
        ((runLoop pv primes scales dt fuel i s acc).getD idx []).all JSNum.isFinite = true := by
  intro fuel
  induction fuel with
  | zero =>
    intro i s acc hacc idx hidx
    rw [runLoop] at hidx ⊢
    have hlt : idx < acc.reverse.length := by
      simp only [List.length_reverse] at hidx ⊢
      omega
    rw [List.getD_eq_getElem?_getD, List.getElem?_eq_getElem hlt]
    exact hacc _ (List.mem_reverse.mp (List.getElem_mem hlt))
  | succ fuel ih =>
    intro i s acc hacc idx hidx
    rw [runLoop] at hidx ⊢
    by_cases hchk : (stepF pv primes scales dt i s).finiteCheck = true
    · rw [if_pos hchk] at hidx ⊢
      refine ih (i + 1) _ _ ?_ idx hidx
      intro p hp
      rcases List.mem_cons.mp hp with rfl | hp2
      · exact toPoint_all_of_finiteCheck hchk
      · exact hacc p hp2
    · rw [if_neg hchk] at hidx ⊢
      rw [List.reverse_cons] at hidx ⊢
      have hlt : idx < acc.reverse.length := by
        simp only [List.length_append, List.length_reverse, List.length_cons] at hidx ⊢
        simp at hidx
        omega
      rw [List.getD_eq_getElem?_getD, List.getElem?_append_left hlt,
        ← List.getD_eq_getElem?_getD]
      rw [List.getD_eq_getElem?_getD, List.getElem?_eq_getElem hlt]
      exact hacc _ (List.mem_reverse.mp (List.getElem_mem hlt))

open JSNum in
theorem runLoop_cons {pv : PV} (primes : List ℕ) (scales : List ℝ) (dt : JSNum)
    (fuel i : ℕ) (s : SpiralState)
    (hchk : (stepF pv primes scales dt i s).finiteCheck = true) :
    runLoop pv primes scales dt (fuel + 1) i s []
      = (stepF pv primes scales dt i s).toPoint
        :: runLoop pv primes scales dt fuel (i + 1) (stepF pv primes scales dt i s) [] := by
  rw [runLoop]
  rw [if_pos hchk, runLoop_append]
  simp

open JSNum in
theorem runLoop_harm_entries {pv : PV} (hpv : pv.AllNum) (primes : List ℕ) (scales : List ℝ)
    {d : ℝ} (hd : 0 < d) :
    ∀ (fuel i : ℕ) (s : SpiralState), s.AllNum → s.h.length = primes.length →
      HarmBound d i s →
      ∀ idx, idx < (runLoop pv primes scales (num d) fuel i s []).length →
        ∀ m, 6 ≤ m → m < ((runLoop pv primes scales (num d) fuel i s []).getD idx []).length →
          ∃ r : ℝ, ((runLoop pv primes scales (num d) fuel i s []).getD idx []).getD m nan = num r
            ∧ |r| < (i + idx + 1) * d := by
  intro fuel
  induction fuel with
  | zero =>
    intro i s _ _ _ idx hidx
    rw [runLoop] at hidx
    simp at hidx
  | succ fuel ih =>
    intro i s hs hlen hb idx hidx
    obtain ⟨hsn, hln, hstep⟩ := stepF_allNum hpv primes scales d i hs hlen
    have hchk := allNum_finiteCheck hsn
    have hb1 : HarmBound d (i + 1) (stepF pv primes scales (num d) i s) := by
      intro k hk
      rw [hln] at hk
      obtain ⟨r, hr, hrle, -⟩ := hb k hk
      obtain ⟨t, ht⟩ := hstep k hk r hr
      have hstrict : |r + Real.tanh t * d| < ((i + 1 : ℕ) : ℝ) * d := by
        have h1 : |r + Real.tanh t * d| ≤ |r| + |Real.tanh t| * d := by
          calc |r + Real.tanh t * d| ≤ |r| + |Real.tanh t * d| := abs_add _ _
            _ = |r| + |Real.tanh t| * d := by
                rw [abs_mul, abs_of_pos hd]
        have h2 : |Real.tanh t| * d < 1 * d :=
          mul_lt_mul_of_pos_right (abs_tanh_lt_one t) hd
        push_cast
        nlinarith
      exact ⟨r + Real.tanh t * d, ht, le_of_lt hstrict, fun _ => hstrict⟩
    rw [runLoop_cons primes scales (num d) fuel i s hchk] at hidx ⊢
    cases idx with
    | zero =>
      intro m hm6 hmlen
      simp only [List.getD_cons_zero] at hmlen ⊢
      rw [toPoint_getD_harm _ m hm6]
      have hmk : m - 6 < (stepF pv primes scales (num d) i s).h.length := by
        rw [toPoint_length] at hmlen
        omega
      obtain ⟨r, hr, -, hstrict⟩ := hb1 (m - 6) hmk
      refine ⟨r, hr, ?_⟩
      have hlt := hstrict (by omega)
      push_cast at hlt ⊢
      calc |r| < ((i : ℝ) + 1) * d := hlt
        _ = ((i : ℝ) + 0 + 1) * d := by ring
    | succ idx =>
      intro m hm6 hmlen
      simp only [List.getD_cons_succ, List.length_cons] at hidx hmlen ⊢
      have hrec := ih (i + 1) _ hsn (hln.trans hlen) hb1 idx (by omega) m hm6 hmlen
      obtain ⟨r, hr, hrlt⟩ := hrec
      refine ⟨r, hr, ?_⟩
      push_cast at hrlt ⊢
      calc |r| < ((i : ℝ) + 1 + idx + 1) * d := hrlt
        _ = ((i : ℝ) + (idx + 1) + 1) * d := by ring

/-! ### Evaluation rules for concrete inputs -/

namespace JSNum

@[simp] theorem jsLt_num_num (a b : ℝ) : jsLt (num a) (num b) ↔ a < b := Iff.rfl

@[simp] theorem jsLe_num_num (a b : ℝ) : jsLe (num a) (num b) ↔ a ≤ b := Iff.rfl

theorem isInteger_num_iff (x : ℝ) : isInteger (num x) ↔ ∃ n : ℤ, x = (n : ℝ) := Iff.rfl

@[simp] theorem mul_inf_zero : mul inf (num 0) = nan := by
  rw [mul_inf_num, if_pos rfl]

end JSNum

open JSNum

@[simp] theorem paramBad_some_num (x : ℝ) : ¬ paramBad (some (num x)) := by
  simp [paramBad]

theorem paramBad_some_inf : ¬ paramBad (some inf) := by
  simp [paramBad]

theorem paramBad_none : paramBad none := Or.inl rfl

theorem paramBad_some_nan : paramBad (some nan) := Or.inr rfl

theorem getD_replicate_of_lt {α : Type} (n i : ℕ) (a d : α) (h : i < n) :
    (List.replicate n a).getD i d = a := by
  rw [List.getD_eq_getElem?_getD, List.getElem?_replicate, if_pos h]
  rfl

theorem zipWith_replicate_same {α β γ : Type} (f : α → β → γ) (n : ℕ) (a : α) (b : β) :
    List.zipWith f (List.replicate n a) (List.replicate n b) = List.replicate n (f a b) := by
  induction n with
  | zero => rfl
  | succ n ih => simp [List.replicate_succ, ih]

theorem foldl_add_num_const {α : Type} (F : α → JSNum) (l : List α)
    (hF : ∀ x ∈ l, F x = num 0) :
    ∀ r : ℝ, l.foldl (fun acc x => add acc (F x)) (num r) = num r := by
  induction l with
  | nil => intro r; rfl
  | cons x t ih =>
    intro r
    rw [List.foldl_cons, hF x (by simp), add_num_num, add_zero]
    exact ih (fun y hy => hF y (by simp [hy])) r

theorem couplingTermAt_zero (n : ℕ) (primes : List ℕ) (t : ℝ) (numH i : ℕ) (hi : i < n) :
    couplingTermAt (List.replicate n (num 0)) primes (num t) numH i = num 0 := by
  unfold couplingTermAt
  rw [getD_replicate_of_lt n i _ nan hi]
  simp only [mul_num_num, cos_num, tanh_num]
  norm_num

theorem crossTermAt_zero (n : ℕ) (primes : List ℕ) (t : ℝ) (i j : ℕ) (hi : i < n)
    (hj : j < n) :
    crossTermAt (List.replicate n (num 0)) primes (num t) i j = num 0 := by
  unfold crossTermAt
  rw [getD_replicate_of_lt n i _ nan hi, getD_replicate_of_lt n j _ nan hj]
  simp only [mul_num_num, sin_num, tanh_num]
  norm_num

/-- With an all-zero harmonic bank and finite time, the coupling term is
exactly zero: every summand of primes.js lines 69-82 vanishes and
`tanh(0) = 0`. -/
theorem coupling_replicate_zero (n : ℕ) (primes : List ℕ) (t c : ℝ) :
    calculateHarmonicCoupling (List.replicate n (num 0)) primes (num t) c = num 0 := by
  unfold calculateHarmonicCoupling
  dsimp only
  have hlen : min (List.replicate n (num 0 : JSNum)).length primes.length ≤ n := by
    simp
  rw [foldl_add_num_const _ _
    (fun i hi => couplingTermAt_zero n primes t _ i
      (lt_of_lt_of_le (List.mem_range.mp hi) hlen)) 0]
  have hcross : ∀ (l : List ℕ), (∀ i ∈ l, i < n) →
      (l.foldl (fun acc i =>
        (List.range' (i + 1)
          (min 5 (min (List.replicate n (num 0 : JSNum)).length primes.length) - (i + 1))).foldl
          (fun acc2 j => add acc2 (crossTermAt (List.replicate n (num 0)) primes (num t) i j)) acc)
        (num 0)) = num 0 := by
    intro l
    induction l with
    | nil => intro _; rfl
    | cons i tl ih =>
      intro hmem
      rw [List.foldl_cons]
      have hin : i < n := hmem i (by simp)
      have hinner : (List.range' (i + 1)
          (min 5 (min (List.replicate n (num 0 : JSNum)).length primes.length) - (i + 1))).foldl
          (fun acc2 j => add acc2 (crossTermAt (List.replicate n (num 0)) primes (num t) i j))
          (num 0) = num 0 := by
        apply foldl_add_num_const
        intro j hjmem
        rw [List.mem_range'] at hjmem
        obtain ⟨u, hu, rfl⟩ := hjmem
        have hjn : i + 1 + 1 * u < n := by
          simp only [List.length_replicate] at hu ⊢
          omega
        exact crossTermAt_zero n primes t i _ hin hjn
      rw [hinner]
      exact ih (fun y hy => hmem y (by simp [hy]))
  rw [hcross (List.range (min 5 (min (List.replicate n (num 0 : JSNum)).length primes.length)))
    (fun i hi => by
      have := List.mem_range.mp hi
      simp only [List.length_replicate] at this
      omega)]
  rw [mul_num_num, tanh_num]
  norm_num

/-- When `phi` is NaN, every harmonic derivative of the step is NaN: the
NaN propagates through the driver, the scaling, and `tanh`
(spiral.js lines 59-76). -/
theorem dharmonics_phi_nan (delta : JSNum) (primes : List ℕ) (scales : List ℝ)
    (h : List JSNum) :
    dharmonicsF delta primes scales h nan = List.replicate primes.length nan := by
  unfold dharmonicsF
  have hpt : ∀ j ∈ List.range primes.length,
      (tanh (add (sub (mul (if j % 2 = 0 then
          sin (add (mul (mul (num (primes.getD j 0)) (num Real.pi)) nan)
            (num ((j * Real.pi) / primes.length)))
        else
          cos (add (mul (mul (num (primes.getD j 0)) (num Real.pi)) nan)
            (num ((j * Real.pi) / primes.length)))) (num (scales.getD j 0)))
        (mul delta (h.getD j nan)))
        (if j = 0 then num 0
          else mul (mul (h.getD (j - 1) nan) (h.getD j nan)) (num 0.0001)))) = nan := by
    intro j _
    have hdriver : (if j % 2 = 0 then
        sin (add (mul (mul (num ((primes.getD j 0 : ℕ) : ℝ)) (num Real.pi)) nan)
          (num ((j * Real.pi) / primes.length)))
      else
        cos (add (mul (mul (num ((primes.getD j 0 : ℕ) : ℝ)) (num Real.pi)) nan)
          (num ((j * Real.pi) / primes.length)))) = nan := by
      split <;> simp
    rw [hdriver]
    simp [JSNum.sub]
  rw [List.map_congr_left hpt]
  simp

/-- The loop bound of a validated integral `steps` value. -/
theorem stepsNat_natCast (n : ℕ) : stepsNat (num (n : ℝ)) = n := by
  show (⌊((n : ℝ))⌋).toNat = n
  rw [Int.floor_natCast]
  exact Int.toNat_natCast n

/-! ### Inverting the validation chain of `generateSpiral` -/

theorem generateSpiral_none (steps dt : JSNum) :
    generateSpiral none steps dt
      = Except.error "Parameters must be provided as an object" := rfl

theorem generateSpiral_ok_inv {p : SpiralParams} {steps dt : JSNum}
    {tr : List (List JSNum)}
    (h : generateSpiral (some p) steps dt = Except.ok tr) :
    tr = runLoop p.extract primes50 harmonicScales dt (stepsNat steps) 0
        (initialState primes50.length) []
    ∧ steps.isInteger ∧ ¬ jsLt steps (num 1) ∧ ¬ jsLt (num 100000) steps
    ∧ ¬ jsLe dt (num 0) ∧ ¬ jsLt (num 1) dt
    ∧ ¬ paramBad p.alpha ∧ ¬ paramBad p.beta ∧ ¬ paramBad p.gamma ∧ ¬ paramBad p.omega
    ∧ ¬ paramBad p.eta ∧ ¬ paramBad p.theta ∧ ¬ paramBad p.delta := by
  unfold generateSpiral at h
  dsimp only at h
  by_cases h1 : ¬ steps.isInteger ∨ jsLt steps (num 1) ∨ jsLt (num 100000) steps
  · rw [if_pos h1] at h
    exact absurd h (by simp)
  · rw [if_neg h1] at h
    by_cases h2 : jsLe dt (num 0) ∨ jsLt (num 1) dt
    · rw [if_pos h2] at h
      exact absurd h (by simp)
    · rw [if_neg h2] at h
      by_cases h3 : paramBad p.alpha
      · rw [if_pos h3] at h
        exact absurd h (by simp)
      · rw [if_neg h3] at h
        by_cases h4 : paramBad p.beta
        · rw [if_pos h4] at h
          exact absurd h (by simp)
        · rw [if_neg h4] at h
          by_cases h5 : paramBad p.gamma
          · rw [if_pos h5] at h
            exact absurd h (by simp)
          · rw [if_neg h5] at h
            by_cases h6 : paramBad p.omega
            · rw [if_pos h6] at h
              exact absurd h (by simp)
            · rw [if_neg h6] at h
              by_cases h7 : paramBad p.eta
              · rw [if_pos h7] at h
                exact absurd h (by simp)
              · rw [if_neg h7] at h
                by_cases h8 : paramBad p.theta
                · rw [if_pos h8] at h
                  exact absurd h (by simp)
                · rw [if_neg h8] at h
                  by_cases h9 : paramBad p.delta
                  · rw [if_pos h9] at h
                    exact absurd h (by simp)
                  · rw [if_neg h9] at h
                    push_neg at h1 h2
                    simp only [Except.ok.injEq] at h
                    exact ⟨h.symm, h1.1, h1.2.1, h1.2.2, h2.1, h2.2,
                      h3, h4, h5, h6, h7, h8, h9⟩

theorem generateSpiral_err {p : SpiralParams} {steps dt : JSNum}
    (hbad : paramBad p.alpha ∨ paramBad p.beta ∨ paramBad p.gamma ∨ paramBad p.omega
      ∨ paramBad p.eta ∨ paramBad p.theta ∨ paramBad p.delta
      ∨ ¬ steps.isInteger ∨ jsLt steps (num 1) ∨ jsLt (num 100000) steps
      ∨ jsLe dt (num 0) ∨ jsLt (num 1) dt) :
    ∃ e, generateSpiral (some p) steps dt = Except.error e := by
  unfold generateSpiral
  dsimp only
  by_cases h1 : ¬ steps.isInteger ∨ jsLt steps (num 1) ∨ jsLt (num 100000) steps
  · exact ⟨_, by rw [if_pos h1]⟩
  · rw [if_neg h1]
    by_cases h2 : jsLe dt (num 0) ∨ jsLt (num 1) dt
    · exact ⟨_, by rw [if_pos h2]⟩
    · rw [if_neg h2]
      by_cases h3 : paramBad p.alpha
      · exact ⟨_, by rw [if_pos h3]⟩
      · rw [if_neg h3]
        by_cases h4 : paramBad p.beta
        · exact ⟨_, by rw [if_pos h4]⟩
        · rw [if_neg h4]
          by_cases h5 : paramBad p.gamma
          · exact ⟨_, by rw [if_pos h5]⟩
          · rw [if_neg h5]
            by_cases h6 : paramBad p.omega
            · exact ⟨_, by rw [if_pos h6]⟩
            · rw [if_neg h6]
              by_cases h7 : paramBad p.eta
              · exact ⟨_, by rw [if_pos h7]⟩
              · rw [if_neg h7]
                by_cases h8 : paramBad p.theta
                · exact ⟨_, by rw [if_pos h8]⟩
                · rw [if_neg h8]
                  by_cases h9 : paramBad p.delta
                  · exact ⟨_, by rw [if_pos h9]⟩
                  · push_neg at h1
                    rcases hbad with hb | hb | hb | hb | hb | hb | hb | hb | hb | hb | hb | hb
                    · exact absurd hb h3
                    · exact absurd hb h4
                    · exact absurd hb h5
                    · exact absurd hb h6
                    · exact absurd hb h7
                    · exact absurd hb h8
                    · exact absurd hb h9
                    · exact absurd h1.1 hb
                    · exact absurd hb h1.2.1
                    · exact absurd hb h1.2.2
                    · exact absurd hb (fun hx => h2 (Or.inl hx))
                    · exact absurd hb (fun hx => h2 (Or.inr hx))

theorem generateSpiral_valid_eq {p : SpiralParams} {steps dt : JSNum}
    (hint : steps.isInteger) (hlo : ¬ jsLt steps (num 1)) (hhi : ¬ jsLt (num 100000) steps)
    (hdt0 : ¬ jsLe dt (num 0)) (hdt1 : ¬ jsLt (num 1) dt)
    (ha : ¬ paramBad p.alpha) (hb : ¬ paramBad p.beta) (hg : ¬ paramBad p.gamma)
    (ho : ¬ paramBad p.omega) (he : ¬ paramBad p.eta) (hth : ¬ paramBad p.theta)
    (hd : ¬ paramBad p.delta) :
    generateSpiral (some p) steps dt
      = Except.ok (runLoop p.extract primes50 harmonicScales dt (stepsNat steps) 0
        (initialState primes50.length) []) := by
  unfold generateSpiral
  dsimp only
  rw [if_neg (by tauto), if_neg (by tauto), if_neg ha, if_neg hb, if_neg hg, if_neg ho,
    if_neg he, if_neg hth, if_neg hd]

/-! ### Concrete runs -/

theorem stepsNat_one : stepsNat (num 1) = 1 := by
  show (⌊(1 : ℝ)⌋).toNat = 1
  rw [show ⌊(1 : ℝ)⌋ = 1 by norm_num]
  rfl

theorem stepsNat_hundred : stepsNat (num 100) = 100 := by
  show (⌊(100 : ℝ)⌋).toNat = 100
  rw [show ⌊(100 : ℝ)⌋ = 100 by norm_num]
  rfl

theorem runLoop_break {pv : PV} {primes : List ℕ} {scales : List ℝ} {dt : JSNum}
    {fuel i : ℕ} {s : SpiralState}
    (hchk : (stepF pv primes scales dt i s).finiteCheck = false) :
    runLoop pv primes scales dt (fuel + 1) i s []
      = [(stepF pv primes scales dt i s).toPoint] := by
  rw [runLoop]
  rw [if_neg (by rw [hchk]; exact Bool.false_ne_true)]
  rfl

/-- The first step of the integrator with `omega = Infinity`: the NaN born
in `cos(omega*i*dt)` floods the velocities and the harmonic bank, while the
positions (updated from the old, zero velocities) stay finite. -/
theorem stepF_infOmega :
    stepF ⟨num 0.1, num 0.1, num 0.1, inf, num 0.1, num 0, num 0.05⟩ primes50 harmonicScales
      (num (1 / 2)) 0 (initialState primes50.length)
      = ⟨num 0.1, num 0.1, num 0.1, nan, nan, nan, List.replicate primes50.length nan⟩ := by
  unfold stepF initialState
  dsimp only
  simp [coupling_replicate_zero, dharmonics_phi_nan, zipWith_replicate_same,
    SpiralState.mk.injEq]

theorem stepF_infOmega_check : (stepF ⟨num 0.1, num 0.1, num 0.1, inf, num 0.1, num 0,
    num 0.05⟩ primes50 harmonicScales (num (1 / 2)) 0
    (initialState primes50.length)).finiteCheck = false := by
  rw [stepF_infOmega]
  simp [SpiralState.finiteCheck]

theorem generateSpiral_infOmega_eq :
    generateSpiral (some infOmegaParams) (num 1) (num (1 / 2))
      = Except.ok [[num 0.1, num 0.1, num 0.1, nan, nan, nan]
          ++ List.replicate primes50.length nan] := by
  rw [generateSpiral_valid_eq (by exact ⟨1, by norm_num⟩)
    (by simp only [jsLt_num_num]; norm_num) (by simp only [jsLt_num_num]; norm_num)
    (by simp only [jsLe_num_num]; norm_num) (by simp only [jsLt_num_num]; norm_num)
    (by simp [infOmegaParams, paramBad]) (by simp [infOmegaParams, paramBad])
    (by simp [infOmegaParams, paramBad]) (by simp [infOmegaParams, paramBad])
    (by simp [infOmegaParams, paramBad]) (by simp [infOmegaParams, paramBad])
    (by simp [infOmegaParams, paramBad]), stepsNat_one]
  rw [show infOmegaParams.extract
      = ⟨num 0.1, num 0.1, num 0.1, inf, num 0.1, num 0, num 0.05⟩ from rfl]
  have h := @runLoop_break _ _ _ _ 0 _ _ stepF_infOmega_check
  rw [h, stepF_infOmega]
  simp [SpiralState.toPoint]

theorem generateSpiral_default_eq :
    generateSpiral (some defaultParams) (num 100) (num 0.02)
      = Except.ok (runLoop defaultParams.extract primes50 harmonicScales (num 0.02) 100 0
          (initialState primes50.length) []) := by
  rw [generateSpiral_valid_eq (by exact ⟨100, by norm_num⟩)
    (by simp only [jsLt_num_num]; norm_num) (by simp only [jsLt_num_num]; norm_num)
    (by simp only [jsLe_num_num]; norm_num) (by simp only [jsLt_num_num]; norm_num)
    (by simp [defaultParams, paramBad]) (by simp [defaultParams, paramBad])
    (by simp [defaultParams, paramBad]) (by simp [defaultParams, paramBad])
    (by simp [defaultParams, paramBad]) (by simp [defaultParams, paramBad])
    (by simp [defaultParams, paramBad]), stepsNat_hundred]

theorem defaultPV_allNum : (defaultParams.extract).AllNum :=
  ⟨⟨0.1, rfl⟩, ⟨0.1, rfl⟩, ⟨0.1, rfl⟩, ⟨1, rfl⟩, ⟨0.1, rfl⟩, ⟨0, rfl⟩, ⟨0.05, rfl⟩⟩

theorem initialState_allNum (n : ℕ) : (initialState n).AllNum := by
  refine ⟨⟨0.1, rfl⟩, ⟨0.1, rfl⟩, ⟨0.1, rfl⟩, ⟨0, rfl⟩, ⟨0, rfl⟩, ⟨0, rfl⟩, ?_⟩
  intro f hf
  rw [List.eq_of_mem_replicate hf]
  exact ⟨0, rfl⟩

theorem initialState_h_length (n : ℕ) : (initialState n).h.length = n := by
  simp [initialState]

theorem initialState_harmBound (d : ℝ) (n : ℕ) : HarmBound d 0 (initialState n) := by
  intro k hk
  rw [initialState_h_length] at hk
  refine ⟨0, ?_, by simp, by omega⟩
  exact getD_replicate_of_lt n k _ nan hk

theorem primes50_length : primes50.length = 50 := by
  unfold primes50 EXTENDED_PRIMES
  rw [sieve_eq_filter 1000, List.length_take]
  have h50 : 50 ≤ ((List.range (1000 + 1)).filter (fun k => decide (Nat.Prime k))).length := by
    have hnodup : ([2, 3, 5, 7, 11, 13, 17, 19, 23, 29, 31, 37, 41, 43, 47, 53, 59, 61,
        67, 71, 73, 79, 83, 89, 97, 101, 103, 107, 109, 113, 127, 131, 137, 139, 149,
        151, 157, 163, 167, 173, 179, 181, 191, 193, 197, 199, 211, 223, 227,
        229] : List ℕ).Nodup := by decide
    have hsub : ([2, 3, 5, 7, 11, 13, 17, 19, 23, 29, 31, 37, 41, 43, 47, 53, 59, 61,
        67, 71, 73, 79, 83, 89, 97, 101, 103, 107, 109, 113, 127, 131, 137, 139, 149,
        151, 157, 163, 167, 173, 179, 181, 191, 193, 197, 199, 211, 223, 227,
        229] : List ℕ) ⊆ (List.range (1000 + 1)).filter (fun k => decide (Nat.Prime k)) := by
      intro a ha
      rw [List.mem_filter, List.mem_range]
      fin_cases ha <;> exact ⟨by norm_num, by decide⟩
    have hsp := (hnodup.subperm hsub).length_le
    simpa using hsp
  omega

/-! ### Remaining loop lemmas -/

theorem finiteCheck_of_toPoint_all {s : SpiralState}
    (h : s.toPoint.all JSNum.isFinite = true) : s.finiteCheck = true := by
  rw [List.all_eq_true] at h
  unfold SpiralState.toPoint at h
  unfold SpiralState.finiteCheck
  rw [h s.x (by simp), h s.y (by simp), h s.z (by simp), h s.u (by simp),
    h s.v (by simp), h s.w (by simp)]
  simp only [Bool.true_and]
  rw [List.all_eq_true]
  exact fun f hf => h f (by simp [hf])

theorem runLoop_all_finite_full (pv : PV) (primes : List ℕ) (scales : List ℝ) (dt : JSNum) :
    ∀ (fuel i : ℕ) (s : SpiralState) (acc : List (List JSNum)),
      (∀ pt ∈ runLoop pv primes scales dt fuel i s acc, pt.all JSNum.isFinite = true) →
      (runLoop pv primes scales dt fuel i s acc).length = acc.length + fuel := by
  intro fuel
  induction fuel with
  | zero => intro i s acc _; simp [runLoop]
  | succ fuel ih =>
    intro i s acc hfin
    rw [runLoop] at hfin ⊢
    by_cases hchk : (stepF pv primes scales dt i s).finiteCheck = true
    · rw [if_pos hchk] at hfin ⊢
      rw [ih (i + 1) _ _ hfin]
      simp only [List.length_cons]
      omega
    · rw [if_neg hchk] at hfin
      have hmem : (stepF pv primes scales dt i s).toPoint
          ∈ ((stepF pv primes scales dt i s).toPoint :: acc).reverse := by
        rw [List.mem_reverse]
        simp
      exact absurd (finiteCheck_of_toPoint_all (hfin _ hmem)) hchk

open JSNum in
theorem runLoop_entry_shape {pv : PV} (hpv : pv.AllNum) (primes : List ℕ) (scales : List ℝ)
    (d : ℝ) :
    ∀ (fuel i : ℕ) (s : SpiralState) (acc : List (List JSNum)), s.AllNum →
      s.h.length = primes.length →
      ∀ pt ∈ runLoop pv primes scales (num d) fuel i s acc,
        pt ∈ acc ∨ (pt.length = 6 + primes.length ∧ pt.all JSNum.isFinite = true) := by
  intro fuel
  induction fuel with
  | zero =>
    intro i s acc _ _ pt hpt
    rw [runLoop] at hpt
    exact Or.inl (List.mem_reverse.mp hpt)
  | succ fuel ih =>
    intro i s acc hs hlen pt hpt
    obtain ⟨hsn, hln, -⟩ := stepF_allNum hpv primes scales d i hs hlen
    rw [runLoop] at hpt
    rw [if_pos (allNum_finiteCheck hsn)] at hpt
    rcases ih (i + 1) _ _ hsn (hln.trans hlen) pt hpt with hin | hprop
    · rcases List.mem_cons.mp hin with rfl | hin2
      · refine Or.inr ⟨?_, toPoint_all_of_finiteCheck (allNum_finiteCheck hsn)⟩
        rw [toPoint_length, hln, hlen]
      · exact Or.inl hin2
    · exact Or.inr hprop

theorem stepF_x (pv : PV) (primes : List ℕ) (scales : List ℝ) (dt : JSNum) (i : ℕ)
    (s : SpiralState) : (stepF pv primes scales dt i s).x = add s.x (mul s.u dt) := rfl

/-! ### Claims C1-C4 and C10 -/

/-- C1 (amended): when a non-finite component is detected, the trajectory is
truncated immediately AFTER pushing the offending state (spiral.js pushes at
line 85 and only then checks at lines 88-93), so every returned entry except
possibly the last is entirely finite; the final entry may carry the
non-finite components. -/
theorem C1_truncation_amended :
    ∀ (p : SpiralParams) (steps dt : JSNum) (tr : List (List JSNum)),
      generateSpiral (some p) steps dt = Except.ok tr →
      ∀ idx, idx + 1 < tr.length → ((tr.getD idx []).all JSNum.isFinite) = true := by
  intro p steps dt tr h idx hidx
  obtain ⟨rfl, -⟩ := generateSpiral_ok_inv h
  exact runLoop_prefix_finite _ _ _ _ _ _ _ [] (by simp) idx hidx

/-- C1 (counterexample): with `omega = Infinity` (which passes validation),
the first step produces NaN components; the returned trajectory consists of
that single state, which is pushed before the instability check fires, so
the returned trajectory DOES contain non-finite values, contrary to the
claim's "truncate at the last-good state". -/
theorem C1_counterexample :
    generateSpiral (some infOmegaParams) (num 1) (num (1 / 2))
      = Except.ok [[num 0.1, num 0.1, num 0.1, nan, nan, nan]
          ++ List.replicate primes50.length nan]
    ∧ (([num 0.1, num 0.1, num 0.1, nan, nan, nan]
          ++ List.replicate primes50.length nan).all JSNum.isFinite) = false :=
  ⟨generateSpiral_infOmega_eq, rfl⟩

/-- Witness for C1: the first entry of the default 100-step run is finite. -/
theorem C1_truncation_amended_witness :
    ((runLoop defaultParams.extract primes50 harmonicScales (num 0.02) 100 0
        (initialState primes50.length) []).getD 0 []).all JSNum.isFinite = true := by
  refine C1_truncation_amended defaultParams (num 100) (num 0.02) _ generateSpiral_default_eq 0 ?_
  rw [runLoop_full_length defaultPV_allNum primes50 harmonicScales 0.02 100 0 _ []
    (initialState_allNum _) (initialState_h_length _)]
  norm_num

/-- C2 (amended): `generateSpiral` rejects — before any stepping — a missing
parameter object, a parameter that is missing or not a number or is NaN, a
non-integer or out-of-range `steps`, and `dt ≤ 0` or `dt > 1`, each with a
descriptive error.  (Parameters equal to ±Infinity are NOT rejected: the
check of spiral.js line 24 only tests `typeof` and `isNaN`.) -/
theorem C2_validation_amended :
    (∀ steps dt : JSNum, generateSpiral none steps dt
        = Except.error "Parameters must be provided as an object")
    ∧ ∀ (p : SpiralParams) (steps dt : JSNum),
        (paramBad p.alpha ∨ paramBad p.beta ∨ paramBad p.gamma ∨ paramBad p.omega
          ∨ paramBad p.eta ∨ paramBad p.theta ∨ paramBad p.delta
          ∨ ¬ steps.isInteger ∨ jsLt steps (num 1) ∨ jsLt (num 100000) steps
          ∨ jsLe dt (num 0) ∨ jsLt (num 1) dt) →
        ∃ e, generateSpiral (some p) steps dt = Except.error e :=
  ⟨fun _ _ => rfl, fun _ _ _ hbad => generateSpiral_err hbad⟩

/-- C2 (counterexample): `omega = Infinity` is not a finite number, yet the
call does not throw — it returns a trajectory — because the validation of
spiral.js lines 22-27 only rejects non-numbers and NaN. -/
theorem C2_counterexample :
    isOkB (generateSpiral (some infOmegaParams) (num 1) (num (1 / 2))) = true := by
  rw [generateSpiral_infOmega_eq]
  rfl

/-- Witness for C2: an object whose `alpha` is missing is rejected. -/
theorem C2_validation_amended_witness :
    ∃ e, generateSpiral (some ⟨none, some (num 0.1), some (num 0.1), some (num 1),
        some (num 0.1), some (num 0), some (num 0.05)⟩) (num 100) (num 0.02)
      = Except.error e :=
  C2_validation_amended.2 _ (num 100) (num 0.02) (Or.inl paramBad_none)

/-- C4: the returned trajectory never has more than `steps` entries, and has
exactly `steps` entries whenever no non-finite value appears in it (the loop
of spiral.js lines 42-94 runs at most `steps` iterations and only stops
early by the instability break). -/
theorem C4_length_invariant :
    ∀ (p : SpiralParams) (n : ℕ) (dt : JSNum) (tr : List (List JSNum)),
      generateSpiral (some p) (num (n : ℝ)) dt = Except.ok tr →
      tr.length ≤ n ∧ ((∀ pt ∈ tr, pt.all JSNum.isFinite = true) → tr.length = n) := by
  intro p n dt tr h
  obtain ⟨rfl, -⟩ := generateSpiral_ok_inv h
  rw [stepsNat_natCast]
  constructor
  · have := runLoop_length_le p.extract primes50 harmonicScales dt n 0
      (initialState primes50.length) []
    simpa using this
  · intro hfin
    have := runLoop_all_finite_full p.extract primes50 harmonicScales dt
      n 0 (initialState primes50.length) [] hfin
    simpa using this

/-! ### The default run and claims C3, C10 -/

theorem default_run_length :
    (runLoop defaultParams.extract primes50 harmonicScales (num 0.02) 100 0
        (initialState primes50.length) []).length = 100 := by
  rw [runLoop_full_length defaultPV_allNum primes50 harmonicScales 0.02 100 0 _ []
    (initialState_allNum _) (initialState_h_length _)]
  simp

theorem default_run_entries :
    ∀ pt ∈ runLoop defaultParams.extract primes50 harmonicScales (num 0.02) 100 0
        (initialState primes50.length) [],
      pt.length = 56 ∧ pt.all JSNum.isFinite = true := by
  intro pt hpt
  rcases runLoop_entry_shape defaultPV_allNum primes50 harmonicScales 0.02 100 0 _ []
    (initialState_allNum _) (initialState_h_length _) pt hpt with hin | ⟨hl, hf⟩
  · exact absurd hin (by simp)
  · exact ⟨by rw [hl, primes50_length], hf⟩

theorem default_run_head :
    (runLoop defaultParams.extract primes50 harmonicScales (num 0.02) 100 0
        (initialState primes50.length) []).getD 0 []
      = (stepF defaultParams.extract primes50 harmonicScales (num 0.02) 0
          (initialState primes50.length)).toPoint := by
  have hsn := (stepF_allNum defaultPV_allNum primes50 harmonicScales 0.02 0
    (initialState_allNum _) (initialState_h_length _)).1
  rw [show (100 : ℕ) = 99 + 1 from rfl,
    runLoop_cons primes50 harmonicScales (num 0.02) 99 0 _ (allNum_finiteCheck hsn)]
  simp only [List.getD_cons_zero]

theorem default_run_head_x :
    ((runLoop defaultParams.extract primes50 harmonicScales (num 0.02) 100 0
        (initialState primes50.length) []).getD 0 []).getD 0 nan = num 0.1 := by
  rw [default_run_head]
  simp only [SpiralState.toPoint, List.cons_append, List.getD_cons_zero]
  rw [stepF_x]
  rw [show (initialState primes50.length).x = num 0.1 from rfl,
    show (initialState primes50.length).u = num 0 from rfl]
  rw [mul_num_num, add_num_num]
  norm_num

/-- C3 (amended): the default scenario — params {alpha 0.1, beta 0.1,
gamma 0.1, omega 1.0, eta 0.1, theta 0.0, delta 0.05}, steps 100,
dt 0.02 — returns exactly 100 state vectors, each of dimension 56 (six base
coordinates plus the fixed bank of 50 prime harmonics; the integrator has no
H parameter), with every component finite, and the first state's x is
exactly 0.1: the initial velocity is zero, so the first Euler step leaves
the position unchanged. -/
theorem C3_default_run_amended :
    ∃ tr, generateSpiral (some defaultParams) (num 100) (num 0.02) = Except.ok tr
      ∧ tr.length = 100
      ∧ (∀ pt ∈ tr, pt.length = 56 ∧ pt.all JSNum.isFinite = true)
      ∧ (tr.getD 0 []).getD 0 nan = num 0.1 :=
  ⟨_, generateSpiral_default_eq, default_run_length, default_run_entries,
    default_run_head_x⟩

theorem toOption_ok_getD {α : Type} (x d : α) :
    ((Except.ok x : Except String α).toOption).getD d = x := rfl

/-- C3 (counterexample): in the default scenario the integrator produces
56-dimensional states, not 12-dimensional ones, and the first state's x is
exactly 0.1, not 0.102 (the initial velocity is zero). -/
theorem C3_counterexample :
    (((generateSpiral (some defaultParams) (num 100) (num 0.02)).toOption.getD
        []).getD 0 []).length = 56
    ∧ (56 : ℕ) ≠ 12
    ∧ (((generateSpiral (some defaultParams) (num 100) (num 0.02)).toOption.getD
        []).getD 0 []).getD 0 nan = num 0.1
    ∧ (0.1 : ℝ) ≠ 0.102 := by
  rw [generateSpiral_default_eq, toOption_ok_getD]
  refine ⟨?_, by norm_num, ?_, by norm_num⟩
  · have hmem : (runLoop defaultParams.extract primes50 harmonicScales (num 0.02) 100 0
        (initialState primes50.length) []).getD 0 []
        ∈ runLoop defaultParams.extract primes50 harmonicScales (num 0.02) 100 0
          (initialState primes50.length) [] := by
      have h0 : 0 < (runLoop defaultParams.extract primes50 harmonicScales (num 0.02) 100 0
          (initialState primes50.length) []).length := by
        rw [default_run_length]
        norm_num
      rw [List.getD_eq_getElem _ _ h0]
      exact List.getElem_mem h0
    exact (default_run_entries _ hmem).1
  · exact default_run_head_x

/-- Witness for C4: the default run has exactly 100 ≤ 100 entries. -/
theorem C4_length_invariant_witness :
    (runLoop defaultParams.extract primes50 harmonicScales (num 0.02) 100 0
        (initialState primes50.length) []).length ≤ 100 := by
  have hok : generateSpiral (some defaultParams) (num ((100 : ℕ) : ℝ)) (num 0.02)
      = Except.ok (runLoop defaultParams.extract primes50 harmonicScales (num 0.02) 100 0
        (initialState primes50.length) []) := by
    rw [show ((100 : ℕ) : ℝ) = (100 : ℝ) by norm_num]
    exact generateSpiral_default_eq
  exact (C4_length_invariant defaultParams 100 (num 0.02) _ hok).1

/-- C10: every harmonic derivative is the `tanh` of a real and so has
magnitude strictly below 1; consequently, in any run with finite parameters,
the harmonic amplitude at trajectory index `idx` is a finite number of
magnitude strictly below `(idx+1)*dt`, hence strictly below `steps*dt`
everywhere in the returned trajectory. -/
theorem C10_harmonic_bound :
    (∀ (delta phi : JSNum) (primes : List ℕ) (scales : List ℝ) (h : List JSNum),
      delta.IsNum → phi.IsNum → (∀ f ∈ h, f.IsNum) → primes.length ≤ h.length →
      ∀ g ∈ dharmonicsF delta primes scales h phi,
        ∃ t : ℝ, g = num (Real.tanh t) ∧ |Real.tanh t| < 1)
    ∧ ∀ (p : SpiralParams) (steps : JSNum) (d : ℝ) (tr : List (List JSNum)),
      p.extract.AllNum →
      generateSpiral (some p) steps (num d) = Except.ok tr →
      ∀ idx, idx < tr.length → ∀ m, 6 ≤ m → m < (tr.getD idx []).length →
        ∃ r : ℝ, (tr.getD idx []).getD m nan = num r
          ∧ |r| < ((idx : ℝ) + 1) * d ∧ |r| < (stepsNat steps : ℝ) * d := by
  constructor
  · intro delta phi primes scales h hd hphi hh hlen g hg
    obtain ⟨t, ht⟩ := dharmonics_tanh delta primes scales h phi hd hphi hh hlen g hg
    exact ⟨t, ht, abs_tanh_lt_one t⟩
  · intro p steps d tr hpv h idx hidx m hm6 hmlen
    obtain ⟨rfl, -, -, -, hdt0, -⟩ := generateSpiral_ok_inv h
    have hd : 0 < d := by
      rw [jsLe_num_num] at hdt0
      exact not_le.mp hdt0
    obtain ⟨r, hr, hlt⟩ := runLoop_harm_entries hpv primes50 harmonicScales hd
      (stepsNat steps) 0 (initialState primes50.length) (initialState_allNum _)
      (initialState_h_length _) (initialState_harmBound d _) idx hidx m hm6 hmlen
    have hlen2 : (runLoop p.extract primes50 harmonicScales (num d) (stepsNat steps) 0
        (initialState primes50.length) []).length ≤ stepsNat steps := by
      have := runLoop_length_le p.extract primes50 harmonicScales (num d) (stepsNat steps) 0
        (initialState primes50.length) []
      simpa using this
    have hidxlt : ((idx : ℝ) + 1) ≤ (stepsNat steps : ℝ) := by
      have : idx + 1 ≤ stepsNat steps := by omega
      exact_mod_cast this
    push_cast at hlt
    refine ⟨r, hr, ?_, ?_⟩
    · calc |r| < ((0 : ℝ) + idx + 1) * d := hlt
        _ = ((idx : ℝ) + 1) * d := by ring
    · calc |r| < ((0 : ℝ) + idx + 1) * d := hlt
        _ = ((idx : ℝ) + 1) * d := by ring
        _ ≤ (stepsNat steps : ℝ) * d := by
            exact mul_le_mul_of_nonneg_right hidxlt (le_of_lt hd)

/-- Witness for C10: the first harmonic amplitude of the first state of the
default run is a finite number of magnitude below 1. -/
theorem C10_harmonic_bound_witness :
    ∃ r : ℝ, ((runLoop defaultParams.extract primes50 harmonicScales (num 0.02) 100 0
        (initialState primes50.length) []).getD 0 []).getD 6 nan = num r ∧ |r| < 1 := by
  have h0 : 0 < (runLoop defaultParams.extract primes50 harmonicScales (num 0.02) 100 0
      (initialState primes50.length) []).length := by
    rw [default_run_length]
    norm_num
  have hmem : (runLoop defaultParams.extract primes50 harmonicScales (num 0.02) 100 0
      (initialState primes50.length) []).getD 0 []
      ∈ runLoop defaultParams.extract primes50 harmonicScales (num 0.02) 100 0
        (initialState primes50.length) [] := by
    rw [List.getD_eq_getElem _ _ h0]
    exact List.getElem_mem h0
  have hmlen : 6 < ((runLoop defaultParams.extract primes50 harmonicScales (num 0.02) 100 0
      (initialState primes50.length) []).getD 0 []).length := by
    rw [(default_run_entries _ hmem).1]
    norm_num
  obtain ⟨r, hr, h1, -⟩ := C10_harmonic_bound.2 defaultParams (num 100) 0.02 _
    defaultPV_allNum generateSpiral_default_eq 0 h0 6 (by norm_num) hmlen
  refine ⟨r, hr, ?_⟩
  have : ((0 : ℕ) : ℝ) + 1 = 1 := by norm_num
  calc |r| < (((0 : ℕ) : ℝ) + 1) * 0.02 := h1
    _ ≤ 1 := by norm_num

/-! ### The weight table: claim C7 -/

theorem isPrimeResonant_natCast (q : ℕ) :
    isPrimeResonant (q : ℝ)
      ↔ q ∈ ([2, 3, 5, 7, 11, 13, 17, 19, 23, 29, 31, 37, 41, 43, 47] : List ℕ) := by
  unfold isPrimeResonant resonantPrimes
  simp only [List.mem_cons, List.not_mem_nil, or_false]
  norm_cast

theorem resonant_iff_le_47 (q : ℕ) (hq : Nat.Prime q) :
    isPrimeResonant (q : ℝ) ↔ q ≤ 47 := by
  rw [isPrimeResonant_natCast]
  have hfil : (List.range 48).filter (fun k => decide (Nat.Prime k))
      = ([2, 3, 5, 7, 11, 13, 17, 19, 23, 29, 31, 37, 41, 43, 47] : List ℕ) := by decide
  rw [← hfil, List.mem_filter, List.mem_range]
  constructor
  · rintro ⟨h48, -⟩
    omega
  · intro h47
    exact ⟨by omega, by simp [hq]⟩

theorem primes50_sorted : primes50.Pairwise (· < ·) := by
  unfold primes50 EXTENDED_PRIMES
  rw [sieve_eq_filter 1000]
  exact ((List.pairwise_lt_range (1000 + 1)).sublist (List.filter_sublist _)).sublist
    (List.take_sublist _ _)

theorem primes50_prime : ∀ p ∈ primes50, Nat.Prime p := by
  intro p hp
  unfold primes50 EXTENDED_PRIMES at hp
  rw [sieve_eq_filter 1000] at hp
  have := List.mem_of_mem_take hp
  rw [List.mem_filter] at this
  exact of_decide_eq_true this.2

set_option maxRecDepth 8192 in
open Classical in
/-- C7: `getHarmonicWeight` lands in `(0, 0.01]` for every positive prime and
positive total, and the actual 50-entry scale table built from the ascending
prime list is monotonically non-increasing in index order. -/
theorem C7_weight_bounds :
    (∀ prime index totalPrimes : ℝ, 0 < prime → 0 < totalPrimes →
      0 < getHarmonicWeight prime index totalPrimes
        ∧ getHarmonicWeight prime index totalPrimes ≤ 0.01)
    ∧ ∀ i j : ℕ, i ≤ j → j < harmonicScales.length →
      harmonicScales.getD j 0 ≤ harmonicScales.getD i 0 := by
  constructor
  · intro prime index totalPrimes hp ht
    unfold getHarmonicWeight
    constructor
    · apply lt_min _ (by norm_num)
      apply mul_pos (mul_pos (Real.exp_pos _) _)
      · rw [one_div]
        exact inv_pos.mpr (mul_pos hp hp)
      · split <;> norm_num
    · exact min_le_right _ _
  · intro i j hij hj
    have hlen : harmonicScales.length = primes50.length := by
      unfold harmonicScales
      rw [List.length_map, List.length_range]
    have hj50 : j < primes50.length := by rwa [hlen] at hj
    have hi50 : i < primes50.length := by omega
    rw [List.getD_eq_getElem _ _ hj,
      List.getD_eq_getElem _ _ (by omega : i < harmonicScales.length)]
    unfold harmonicScales
    rw [List.getElem_map, List.getElem_map, List.getElem_range, List.getElem_range,
      List.getD_eq_getElem _ _ hj50, List.getD_eq_getElem _ _ hi50]
    unfold getHarmonicWeight
    apply min_le_min _ (le_refl _)
    have hple : primes50[i] ≤ primes50[j] := by
      rcases Nat.lt_or_ge i j with hlt | hge
      · exact le_of_lt (List.pairwise_iff_getElem.mp primes50_sorted i j hi50 hj50 hlt)
      · have : i = j := by omega
        subst this
        exact le_refl _
    have hpi : Nat.Prime primes50[i] := primes50_prime _ (List.getElem_mem hi50)
    have hpj : Nat.Prime primes50[j] := primes50_prime _ (List.getElem_mem hj50)
    have hpi0 : (0 : ℝ) < (primes50[i] : ℝ) := by
      exact_mod_cast hpi.pos
    have hpj0 : (0 : ℝ) < (primes50[j] : ℝ) := by
      exact_mod_cast hpj.pos
    have hL : (0 : ℝ) < (primes50.length : ℝ) * 0.1 := by
      rw [primes50_length]
      norm_num
    have hexp : Real.exp (-(j : ℝ) / ((primes50.length : ℝ) * 0.1))
        ≤ Real.exp (-(i : ℝ) / ((primes50.length : ℝ) * 0.1)) := by
      apply Real.exp_le_exp.mpr
      apply (div_le_div_iff_of_pos_right hL).mpr
      apply neg_le_neg
      exact_mod_cast hij
    have hboost : (if isPrimeResonant (primes50[j] : ℝ) then (1.1 : ℝ) else 1.0)
        ≤ (if isPrimeResonant (primes50[i] : ℝ) then (1.1 : ℝ) else 1.0) := by
      by_cases hrj : isPrimeResonant (primes50[j] : ℝ)
      · have h47 : primes50[j] ≤ 47 := (resonant_iff_le_47 _ hpj).mp hrj
        have hri : isPrimeResonant (primes50[i] : ℝ) :=
          (resonant_iff_le_47 _ hpi).mpr (le_trans hple h47)
        rw [if_pos hrj, if_pos hri]
      · rw [if_neg hrj]
        split <;> norm_num
    have hinv : 1 / ((primes50[j] : ℝ) * (primes50[j] : ℝ))
        ≤ 1 / ((primes50[i] : ℝ) * (primes50[i] : ℝ)) := by
      apply one_div_le_one_div_of_le (mul_pos hpi0 hpi0)
      have : (primes50[i] : ℝ) ≤ (primes50[j] : ℝ) := by exact_mod_cast hple
      exact mul_le_mul this this (le_of_lt hpi0) (le_of_lt hpj0)
    have hbj0 : (0 : ℝ) ≤ (if isPrimeResonant (primes50[j] : ℝ) then (1.1 : ℝ) else 1.0) := by
      split <;> norm_num
    have hbi0 : (0 : ℝ) ≤ (if isPrimeResonant (primes50[i] : ℝ) then (1.1 : ℝ) else 1.0) := by
      split <;> norm_num
    apply mul_le_mul (mul_le_mul hexp hboost hbj0 (le_of_lt (Real.exp_pos _))) hinv
    · rw [one_div]
      exact le_of_lt (inv_pos.mpr (mul_pos hpj0 hpj0))
    · exact mul_nonneg (le_of_lt (Real.exp_pos _)) hbi0

/-- Witness for C7: the weight at prime 2, index 0, total 50 is in (0, 0.01]. -/
theorem C7_weight_bounds_witness :
    0 < getHarmonicWeight 2 0 50 ∧ getHarmonicWeight 2 0 50 ≤ 0.01 :=
  C7_weight_bounds.1 2 0 50 (by norm_num) (by norm_num)

/-! ### The projector: claims C5, C8, C9 -/

theorem projectSpiral_color (pca : List (List ℝ) → Except String (List (List ℝ)))
    (points : List (List ℝ)) :
    (projectSpiral pca points).color = points.map colorOfPoint := rfl

theorem projectSpiral_size (pca : List (List ℝ) → Except String (List (List ℝ)))
    (points : List (List ℝ)) :
    (projectSpiral pca points).size = points.map sizeOfPoint := rfl

theorem projectSpiral_opacity (pca : List (List ℝ) → Except String (List (List ℝ)))
    (points : List (List ℝ)) :
    (projectSpiral pca points).opacity = points.map opacityOfPoint := rfl

theorem foldl_add_eq_sum (f : ℕ → ℝ) :
    ∀ (k a : ℕ) (s : ℝ),
      (List.range' a k).foldl (fun acc i => acc + f i) s
        = s + ∑ i ∈ Finset.Ico a (a + k), f i := by
  intro k
  induction k with
  | zero =>
    intro a s
    simp
  | succ k ih =>
    intro a s
    rw [List.range'_succ, List.foldl_cons, ih (a + 1) (s + f a),
      Finset.sum_eq_sum_Ico_succ_bot (by omega : a < a + (k + 1)) f]
    have : a + 1 + k = a + (k + 1) := by omega
    rw [this]
    ring

/-- C5 (amended): the auxiliary quantity `extra` (the code's `harmonicSum`)
is the weighted sum over ALL harmonic coordinates of the sample, starting at
flat index 6 — the base six harmonics included, indexed by flat position —
`extra = 0.1 * Σ_{i=6}^{len-1} p[i]·cos(0.1·i)`; the color triple is
`[(h0+extra·0.5) % 1, (h1+extra·0.3) % 1, (h2+extra·0.7) % 1]` with the JS
remainder.  For a trajectory of exactly six harmonics (rows of length 12)
`extra` is the generally nonzero sum `0.1 * Σ_{i=6}^{11} p[i]·cos(0.1·i)`. -/
theorem C5_harmonicSum_amended :
    (∀ p : List ℝ, harmonicSumOfPoint p
        = (∑ i ∈ Finset.Ico 6 p.length, p.getD i 0 * Real.cos (i * 0.1)) * 0.1)
    ∧ (∀ (pca : List (List ℝ) → Except String (List (List ℝ))) (points : List (List ℝ)),
        (projectSpiral pca points).color = points.map (fun p =>
          [jsRem (p.getD 6 0 + harmonicSumOfPoint p * 0.5) 1,
           jsRem (p.getD 7 0 + harmonicSumOfPoint p * 0.3) 1,
           jsRem (p.getD 8 0 + harmonicSumOfPoint p * 0.7) 1]))
    ∧ (∀ p : List ℝ, p.length = 12 → harmonicSumOfPoint p
        = (∑ i ∈ Finset.Ico 6 12, p.getD i 0 * Real.cos (i * 0.1)) * 0.1) := by
  have hmain : ∀ p : List ℝ, harmonicSumOfPoint p
      = (∑ i ∈ Finset.Ico 6 p.length, p.getD i 0 * Real.cos (i * 0.1)) * 0.1 := by
    intro p
    unfold harmonicSumOfPoint
    rw [foldl_add_eq_sum (fun i => p.getD i 0 * Real.cos (i * 0.1)) (p.length - 6) 6 0]
    rcases le_or_lt 6 p.length with h6 | h6
    · rw [show 6 + (p.length - 6) = p.length by omega]
      ring
    · rw [show 6 + (p.length - 6) = 6 by omega,
        Finset.Ico_eq_empty (by omega : ¬ 6 < 6),
        Finset.Ico_eq_empty (by omega : ¬ 6 < p.length)]
      simp
  refine ⟨hmain, fun pca points => rfl, fun p hp => ?_⟩
  rw [hmain p, hp]

/-- C5 (counterexample): for the single 12-dimensional sample
`[0,0,0,0,0,0,1,0,0,0,0,0]` — exactly six harmonics, h0 = 1 — the code's
`harmonicSum` is `cos(0.6)·0.1 ≠ 0`, whereas the claim asserts it is zero
for any trajectory with exactly six harmonics. -/
theorem C5_counterexample :
    ([(0 : ℝ), 0, 0, 0, 0, 0, 1, 0, 0, 0, 0, 0] : List ℝ).length = 12
    ∧ harmonicSumOfPoint [(0 : ℝ), 0, 0, 0, 0, 0, 1, 0, 0, 0, 0, 0] ≠ 0 := by
  refine ⟨by simp, ?_⟩
  have hval : harmonicSumOfPoint [(0 : ℝ), 0, 0, 0, 0, 0, 1, 0, 0, 0, 0, 0]
      = Real.cos (6 * 0.1) * 0.1 := by
    unfold harmonicSumOfPoint
    norm_num [List.range']
  rw [hval]
  have hcos : 0 < Real.cos (6 * 0.1) := by
    apply Real.cos_pos_of_mem_Ioo
    constructor
    · have := Real.pi_gt_three
      norm_num
      linarith
    · have := Real.pi_gt_three
      norm_num
      linarith
  positivity

/-- Witness for C5: the six-harmonic formula evaluated at the
counterexample sample. -/
theorem C5_harmonicSum_amended_witness :
    harmonicSumOfPoint [(0 : ℝ), 0, 0, 0, 0, 0, 1, 0, 0, 0, 0, 0]
      = (∑ i ∈ Finset.Ico 6 12,
          ([(0 : ℝ), 0, 0, 0, 0, 0, 1, 0, 0, 0, 0, 0] : List ℝ).getD i 0
            * Real.cos (i * 0.1)) * 0.1 :=
  C5_harmonicSum_amended.2.2 _ (by simp)

/-- C8: on any non-empty trajectory, when the eigendecomposition oracle
fails (the `catch` of projection.js lines 44-51), `projectSpiral` does not
propagate the failure: it returns the raw first three coordinates of each
sample as X, Y, Z. -/
theorem C8_projection_fallback :
    ∀ (points : List (List ℝ)) (e : String), points ≠ [] →
      (projectSpiral (fun _ => Except.error e) points).X
          = points.map (fun p => p.getD 0 0)
      ∧ (projectSpiral (fun _ => Except.error e) points).Y
          = points.map (fun p => p.getD 1 0)
      ∧ (projectSpiral (fun _ => Except.error e) points).Z
          = points.map (fun p => p.getD 2 0) := by
  intro points e hne
  unfold projectSpiral
  by_cases hdim : 50 < (points.headD []).length
  · rw [if_pos hdim]
    exact ⟨rfl, rfl, rfl⟩
  · rw [if_neg hdim]
    exact ⟨rfl, rfl, rfl⟩

/-- Witness for C8: the fallback on a concrete one-sample trajectory. -/
theorem C8_projection_fallback_witness :
    (projectSpiral (fun _ => Except.error "fail") [[(1 : ℝ), 2, 3, 4]]).X = [(1 : ℝ)] := by
  rw [(C8_projection_fallback [[(1 : ℝ), 2, 3, 4]] "fail" (by simp)).1]
  simp

/-- C9: every size is at least 1 (an absolute value scaled and shifted,
projection.js line 75) and every opacity lies in [0, 1] (an affine image of
`tanh`, projection.js line 76). -/
theorem C9_size_opacity_bounds :
    ∀ (pca : List (List ℝ) → Except String (List (List ℝ))) (points : List (List ℝ)),
      (∀ x ∈ (projectSpiral pca points).size, 1 ≤ x)
      ∧ ∀ y ∈ (projectSpiral pca points).opacity, 0 ≤ y ∧ y ≤ 1 := by
  intro pca points
  constructor
  · intro x hx
    rw [projectSpiral_size] at hx
    obtain ⟨p, -, rfl⟩ := List.mem_map.mp hx
    unfold sizeOfPoint
    have := abs_nonneg (p.getD 9 0 + harmonicSumOfPoint p * 0.2)
    linarith
  · intro y hy
    rw [projectSpiral_opacity] at hy
    obtain ⟨p, -, rfl⟩ := List.mem_map.mp hy
    unfold opacityOfPoint
    have := abs_tanh_lt_one (p.getD 10 0 + harmonicSumOfPoint p * 0.1)
    rw [abs_lt] at this
    constructor <;> linarith [this.1, this.2]

/-- Witness for C9: the bounds at a concrete all-zero sample. -/
theorem C9_size_opacity_bounds_witness :
    1 ≤ sizeOfPoint (List.replicate 12 (0 : ℝ))
    ∧ 0 ≤ opacityOfPoint (List.replicate 12 (0 : ℝ))
    ∧ opacityOfPoint (List.replicate 12 (0 : ℝ)) ≤ 1 := by
  have hmem1 : sizeOfPoint (List.replicate 12 (0 : ℝ))
      ∈ (projectSpiral (fun _ => Except.error "e") [List.replicate 12 (0 : ℝ)]).size := by
    rw [projectSpiral_size]
    simp
  have hmem2 : opacityOfPoint (List.replicate 12 (0 : ℝ))
      ∈ (projectSpiral (fun _ => Except.error "e") [List.replicate 12 (0 : ℝ)]).opacity := by
    rw [projectSpiral_opacity]
    simp
  have h1 := (C9_size_opacity_bounds (fun _ => Except.error "e")
    [List.replicate 12 (0 : ℝ)]).1 _ hmem1
  have h2 := (C9_size_opacity_bounds (fun _ => Except.error "e")
    [List.replicate 12 (0 : ℝ)]).2 _ hmem2
  exact ⟨h1, h2.1, h2.2⟩

end StrangeAttractors
